import Mathlib

/-!
Shallow embedding of `MADS_system.cpp` (Malaysia Agro Distribution System).

Modelling conventions, applied uniformly:
* C++ `double` values (prices, credit balances, costs, distances) are read as
  exact rationals `ℚ`; C++ `int` is read as `Int` (no overflow at the scales
  the program handles).
* Environment effects are passed as explicit arguments: `generateHash()` and
  `getCurrentTimestamp()` become `String` parameters supplied by the caller,
  and `calculateDistance` (whose value `sqrt(dLat^2+dLon^2) * 111` is
  irrational) becomes an explicit distance-function parameter; every theorem
  below quantifies over that parameter, so it holds for the planar distance
  function in particular.
* `std::vector` members become `List` fields; the C++ find-then-mutate
  pattern (mutating through the pointer returned by a linear scan) becomes
  `updateFirst`, which rewrites the first matching element of the list.
* A C++ function that can throw is modelled with `Option` (`none` = the
  exception escapes to the enclosing catch handler).
-/

/-- Replace the first element satisfying `p` by its image under `f`; the tail
is untouched.  This models the C++ find-then-mutate pattern: `findX` returns a
pointer to the first element with the wanted id and the caller mutates through
that pointer. -/
def updateFirst {α : Type} (p : α → Bool) (f : α → α) : List α → List α
  | [] => []
  | x :: xs => if p x then f x :: xs else x :: updateFirst p f xs

/-- Split a character list at every occurrence of the separator (the
`std::getline(ss, item, sep)` splitting, before the trailing-field fix-up). -/
def splitOnChar (sep : Char) : List Char → List (List Char)
  | [] => [[]]
  | c :: cs =>
    let rest := splitOnChar sep cs
    if c = sep then [] :: rest
    else
      match rest with
      | [] => [[c]]
      | r :: rs => (c :: r) :: rs

/-- Split a line on the field delimiter the way the C++ idiom
`while (std::getline(ss, item, sep))` does: an empty input yields no fields,
and one trailing delimiter does not produce a trailing empty field. -/
def cppSplit (s : String) : List String :=
  if s.data = [] then []
  else
    let parts := (splitOnChar '|' s.data).map (fun l => String.mk l)
    if s.data.getLast? = some '|' then parts.dropLast else parts

/-- Value of a digit run, most significant digit first. -/
def digitsVal : List Char → Nat → Nat
  | [], acc => acc
  | c :: cs, acc => digitsVal cs (acc * 10 + (c.toNat - 48))

/-- Model of `std::stoi` on the characters of the argument: skip leading
spaces, accept an optional sign, read a maximal digit run (ignoring any
trailing garbage), and fail (`none`, i.e. the C++ call throws) when no digit
is present. -/
def stoi? (s : String) : Option Int :=
  let t := s.data.dropWhile (fun c => c = ' ')
  let sign : Int := match t with
    | c :: _ => if c = '-' then -1 else 1
    | [] => 1
  let u := match t with
    | c :: rest => if c = '-' || c = '+' then rest else t
    | [] => t
  let digits := u.takeWhile Char.isDigit
  if digits = [] then none
  else some (sign * (digitsVal digits 0 : Int))

/-- Model of `std::stod`, reading the decimal literal exactly into `ℚ`: skip
leading spaces, optional sign, an integer digit run and an optional
fractional digit run; fail (`none`) when no leading digit is present. -/
def stod? (s : String) : Option ℚ :=
  let t := s.data.dropWhile (fun c => c = ' ')
  let sign : ℚ := match t with
    | c :: _ => if c = '-' then -1 else 1
    | [] => 1
  let u := match t with
    | c :: rest => if c = '-' || c = '+' then rest else t
    | [] => t
  let intPart := u.takeWhile Char.isDigit
  if intPart = [] then none
  else
    match u.drop intPart.length with
    | '.' :: rest2 =>
      let frac := rest2.takeWhile Char.isDigit
      some (sign * ((digitsVal intPart 0 : ℚ) +
        (digitsVal frac 0 : ℚ) / ((10 : ℚ) ^ frac.length)))
    | _ => some (sign * (digitsVal intPart 0 : ℚ))

/-- Truncation toward zero, the behaviour of `static_cast<int>` on a
(here exactly represented) C++ `double`. -/
def ratTrunc (q : ℚ) : Int :=
  if 0 ≤ q then Int.floor q else Int.ceil q

/-- One block of the chain (`class Block`). -/
structure Block where
  blockNumber : Int
  currentHash : String
  previousHash : String
  timestamp : String
  data : String
deriving DecidableEq

/-- `Block::deserialize`: split on the field delimiter, require at least five
fields, parse the block number with `stoi`; `none` models the thrown
`runtime_error` (either the explicit format check or an `stoi` failure). -/
def Block.deserialize (s : String) : Option Block :=
  let parts := cppSplit s
  if parts.length < 5 then none
  else
    match stoi? (parts.getD 0 "") with
    | none => none
    | some blockNum =>
      some { blockNumber := blockNum, currentHash := parts.getD 1 "",
             previousHash := parts.getD 2 "", timestamp := parts.getD 3 "",
             data := parts.getD 4 "" }

/-- The chain of blocks (`class Blockchain`). -/
structure Blockchain where
  chain : List Block
deriving DecidableEq

/-- Constructor plus `createGenesisBlock`: the fresh chain holds exactly one
block with number 0 and data "Genesis Block".  In the C++ the genesis block's
predecessor hash is one generated hash and its own hash is a second generated
hash; both are environment inputs here. -/
def mkBlockchain (genesisPrevHash genesisHash ts : String) : Blockchain :=
  { chain := [{ blockNumber := 0, currentHash := genesisHash,
                previousHash := genesisPrevHash, timestamp := ts,
                data := "Genesis Block" }] }

/-- `Blockchain::getLatestBlock`; `none` models the thrown error on an empty
chain. -/
def Blockchain.getLatestBlock (bc : Blockchain) : Option Block :=
  bc.chain.getLast?

/-- `Blockchain::addBlock`: build a block whose number is the latest block's
number plus one and whose predecessor hash is the latest block's own hash,
and push it.  `none` models the rethrown empty-chain error. -/
def Blockchain.addBlock (bc : Blockchain) (newHash ts blockData : String) :
    Option Blockchain :=
  match bc.chain.getLast? with
  | none => none
  | some latest =>
    some { chain := bc.chain ++
      [{ blockNumber := latest.blockNumber + 1, currentHash := newHash,
         previousHash := latest.currentHash, timestamp := ts,
         data := blockData }] }

/-- Loop body of `Blockchain::isChainValid`: every block's stored previous
hash must equal its predecessor's own hash. -/
def chainLinked : List Block → Bool
  | [] => true
  | [_] => true
  | a :: b :: rest => (b.previousHash == a.currentHash) && chainLinked (b :: rest)

/-- `Blockchain::isChainValid`. -/
def Blockchain.isChainValid (bc : Blockchain) : Bool :=
  chainLinked bc.chain

/-- Loop of `Blockchain::loadFromFile` after `chain.clear()`: deserialize the
lines in order, pushing each block; the first malformed line makes the whole
load return `false` immediately, keeping exactly the blocks read so far. -/
def loadChainLoop : List String → List Block → Bool × List Block
  | [], acc => (true, acc)
  | l :: ls, acc =>
    match Block.deserialize l with
    | some b => loadChainLoop ls (acc ++ [b])
    | none => (false, acc)

/-- `Blockchain::loadFromFile` on the file's lines (the cannot-open-file path
is outside the embedding): clear the chain, run the load loop, and recreate a
genesis block only when the loop finished and produced an empty chain. -/
def Blockchain.loadFromFile (lines : List String)
    (genesisPrevHash genesisHash ts : String) : Bool × Blockchain :=
  match loadChainLoop lines [] with
  | (false, acc) => (false, { chain := acc })
  | (true, acc) =>
    if acc.isEmpty then (true, mkBlockchain genesisPrevHash genesisHash ts)
    else (true, { chain := acc })

/-- Generic per-line load loop used by `ProductionPlanningSystem::loadData`
for every catalog record kind: deserialize each line, keep the successes, and
skip a malformed line (the catch prints a message and the loop continues). -/
def loadLines {α : Type} (des : String → Option α) : List String → List α
  | [] => []
  | l :: ls =>
    match des l with
    | some a => a :: loadLines des ls
    | none => loadLines des ls

/-- Product catalog entry (`class Product`). -/
structure Product where
  id : Int
  name : String
  price : ℚ
  stock : Int
deriving DecidableEq

/-- `Product::updateStock`: add the (possibly negative) quantity to the
stock. -/
def Product.updateStock (p : Product) (quantity : Int) : Product :=
  { p with stock := p.stock + quantity }

/-- `Product::hasEnoughStock`. -/
def Product.hasEnoughStock (p : Product) (quantity : Int) : Bool :=
  decide (quantity ≤ p.stock)

/-- `Product::deserialize`. -/
def Product.deserialize (s : String) : Option Product :=
  let parts := cppSplit s
  if parts.length < 4 then none
  else
    match stoi? (parts.getD 0 ""), stod? (parts.getD 2 ""), stoi? (parts.getD 3 "") with
    | some id, some price, some stock =>
      some { id := id, name := parts.getD 1 "", price := price, stock := stock }
    | _, _, _ => none

/-- Supplier catalog entry (`class Supplier`). -/
structure Supplier where
  id : Int
  name : String
  location : String
  branch : String
  latitude : ℚ
  longitude : ℚ
  productIds : List Int
deriving DecidableEq

/-- Parse the comma-separated product-id sublist of a persisted supplier or
retailer line, skipping empty items as the C++ loop does; `none` when some
item makes `stoi` throw. -/
def parseIdList (s : String) : Option (List Int) :=
  ((splitOnChar ',' s.data).map (fun l => String.mk l)).foldl
    (fun acc item =>
      match acc with
      | none => none
      | some ids =>
        if item.data = [] then some ids
        else match stoi? item with
          | none => none
          | some i => some (ids ++ [i]))
    (some [])

/-- `Supplier::deserialize`. -/
def Supplier.deserialize (s : String) : Option Supplier :=
  let parts := cppSplit s
  if parts.length < 6 then none
  else
    match stoi? (parts.getD 0 ""), stod? (parts.getD 4 ""), stod? (parts.getD 5 "") with
    | some id, some lat, some lon =>
      match (if parts.length > 6 then parseIdList (parts.getD 6 "") else some []) with
      | none => none
      | some ids =>
        some { id := id, name := parts.getD 1 "", location := parts.getD 2 "",
               branch := parts.getD 3 "", latitude := lat, longitude := lon,
               productIds := ids }
    | _, _, _ => none

/-- Retailer catalog entry (`class Retailer`). -/
structure Retailer where
  id : Int
  name : String
  location : String
  latitude : ℚ
  longitude : ℚ
  creditBalance : ℚ
  annualCreditBalance : ℚ
  productIds : List Int
deriving DecidableEq

/-- `Retailer::deductCredit`: when the current balance covers the amount,
subtract it from both the current and the annual balance and report success;
otherwise leave the retailer untouched and report failure. -/
def Retailer.deductCredit (r : Retailer) (amount : ℚ) : Bool × Retailer :=
  if amount ≤ r.creditBalance then
    (true, { r with
             creditBalance := r.creditBalance - amount,
             annualCreditBalance := r.annualCreditBalance - amount })
  else
    (false, r)

/-- `Retailer::addCredit`. -/
def Retailer.addCredit (r : Retailer) (amount : ℚ) : Retailer :=
  { r with
    creditBalance := r.creditBalance + amount,
    annualCreditBalance := r.annualCreditBalance + amount }

/-- `Retailer::deserialize`. -/
def Retailer.deserialize (s : String) : Option Retailer :=
  let parts := cppSplit s
  if parts.length < 7 then none
  else
    match stoi? (parts.getD 0 ""), stod? (parts.getD 3 ""), stod? (parts.getD 4 ""),
          stod? (parts.getD 5 ""), stod? (parts.getD 6 "") with
    | some id, some lat, some lon, some credit, some annual =>
      match (if parts.length > 7 then parseIdList (parts.getD 7 "") else some []) with
      | none => none
      | some ids =>
        some { id := id, name := parts.getD 1 "", location := parts.getD 2 "",
               latitude := lat, longitude := lon, creditBalance := credit,
               annualCreditBalance := annual, productIds := ids }
    | _, _, _, _, _ => none

/-- Transporter catalog entry (`class Transporter`). -/
structure Transporter where
  id : Int
  name : String
  transportType : String
  costPerKm : ℚ
  maxCapacity : ℚ
deriving DecidableEq

/-- `Transporter::calculateTransportCost`. -/
def Transporter.calculateTransportCost (t : Transporter) (distance : ℚ) : ℚ :=
  distance * t.costPerKm

/-- `Transporter::deserialize`. -/
def Transporter.deserialize (s : String) : Option Transporter :=
  let parts := cppSplit s
  if parts.length < 5 then none
  else
    match stoi? (parts.getD 0 ""), stod? (parts.getD 3 ""), stod? (parts.getD 4 "") with
    | some id, some cost, some cap =>
      some { id := id, name := parts.getD 1 "", transportType := parts.getD 2 "",
             costPerKm := cost, maxCapacity := cap }
    | _, _, _ => none

/-- Transaction status; the constructor default "Pending" is always
overwritten to "Completed" or "Failed" before a transaction is stored. -/
inductive TxStatus where
  | Pending
  | Completed
  | Failed
deriving DecidableEq

/-- Render a status the way the C++ status strings read. -/
def TxStatus.asString : TxStatus → String
  | .Pending => "Pending"
  | .Completed => "Completed"
  | .Failed => "Failed"

/-- One transaction (`class Transaction`). -/
structure Transaction where
  id : Int
  supplierId : Int
  retailerId : Int
  productId : Int
  transporterId : Int
  quantity : Int
  productCost : ℚ
  transportCost : ℚ
  totalCost : ℚ
  timestamp : String
  status : TxStatus
  orderType : String
deriving DecidableEq

/-- `Transaction::getBlockData` (numeric rendering abbreviated: the C++ prints
costs with two decimals; the exact decimal formatting carries no logic). -/
def Transaction.getBlockData (t : Transaction) : String :=
  "Transaction ID: " ++ toString t.id ++
  " | Supplier ID: " ++ toString t.supplierId ++
  " | Retailer ID: " ++ toString t.retailerId ++
  " | Product ID: " ++ toString t.productId ++
  " | Quantity: " ++ toString t.quantity ++
  " | Total Cost: RM" ++ toString t.totalCost ++
  " | Timestamp: " ++ t.timestamp ++
  " | Status: " ++ t.status.asString ++
  " | Order Type: " ++ t.orderType

/-- `Transaction::deserialize`. -/
def Transaction.deserialize (s : String) : Option Transaction :=
  let parts := cppSplit s
  if parts.length < 12 then none
  else
    match stoi? (parts.getD 0 ""), stoi? (parts.getD 1 ""), stoi? (parts.getD 2 ""),
          stoi? (parts.getD 3 ""), stoi? (parts.getD 4 ""), stoi? (parts.getD 5 "") with
    | some id, some sId, some rId, some pId, some tId, some qty =>
      match stod? (parts.getD 6 ""), stod? (parts.getD 7 ""), stod? (parts.getD 8 "") with
      | some pCost, some tCost, some total =>
        let status := if parts.getD 10 "" = "Completed" then TxStatus.Completed
          else if parts.getD 10 "" = "Failed" then TxStatus.Failed
          else TxStatus.Pending
        some { id := id, supplierId := sId, retailerId := rId, productId := pId,
               transporterId := tId, quantity := qty, productCost := pCost,
               transportCost := tCost, totalCost := total,
               timestamp := parts.getD 9 "", status := status,
               orderType := parts.getD 11 "" }
      | _, _, _ => none
    | _, _, _, _, _, _ => none

/-- The shipped policy contracts (`class SmartContract` and its only derived
class `PriceThresholdContract`), read as a closed variant set. -/
inductive SmartContract where
  | priceThreshold (maxAllowedCost : ℚ)
deriving DecidableEq

/-- `PriceThresholdContract::validate`: accept exactly when the total cost is
within the threshold. -/
def SmartContract.validate : SmartContract → Transaction → Bool
  | .priceThreshold maxAllowedCost, t => decide (t.totalCost ≤ maxAllowedCost)

/-- The system object (`class ProductionPlanningSystem`): the five owned
collections, the registered contracts, the blockchain and the id counters. -/
structure SystemState where
  products : List Product
  suppliers : List Supplier
  retailers : List Retailer
  transporters : List Transporter
  transactions : List Transaction
  contracts : List SmartContract
  blockchain : Blockchain
  nextProductId : Int
  nextSupplierId : Int
  nextRetailerId : Int
  nextTransporterId : Int
  nextTransactionId : Int
deriving DecidableEq

/-- `ProductionPlanningSystem::findProduct`: linear scan, first match. -/
def SystemState.findProduct (st : SystemState) (id : Int) : Option Product :=
  st.products.find? (fun p => p.id == id)

/-- `ProductionPlanningSystem::findSupplier`. -/
def SystemState.findSupplier (st : SystemState) (id : Int) : Option Supplier :=
  st.suppliers.find? (fun s => s.id == id)

/-- `ProductionPlanningSystem::findRetailer`. -/
def SystemState.findRetailer (st : SystemState) (id : Int) : Option Retailer :=
  st.retailers.find? (fun r => r.id == id)

/-- `ProductionPlanningSystem::findTransporter`. -/
def SystemState.findTransporter (st : SystemState) (id : Int) : Option Transporter :=
  st.transporters.find? (fun t => t.id == id)

/-- The throwing validation steps 1-3 of `createTransaction` bundled as one
predicate: all four entities resolve, the supplier's product list contains the
product, and the product has enough stock.  Exactly when this is false the
C++ throws before a `Transaction` object exists and the catch handler returns
-1 with nothing changed. -/
def passesPreChecks (st : SystemState)
    (supplierId retailerId productId transporterId quantity : Int) : Bool :=
  match st.findSupplier supplierId, st.findRetailer retailerId,
        st.findProduct productId, st.findTransporter transporterId with
  | some supplier, some _, some product, some _ =>
    supplier.productIds.contains productId && product.hasEnoughStock quantity
  | _, _, _, _ => false

/-- `ProductionPlanningSystem::createTransaction`.  `dist` abstracts
`calculateDistance` (an irrational square-root expression), `ts` the clock and
`newHash` the hash generator; the result is the returned transaction id (-1
when the catch handler fires) paired with the state after the call. -/
def createTransaction (dist : ℚ → ℚ → ℚ → ℚ → ℚ) (ts newHash : String)
    (st : SystemState)
    (supplierId retailerId productId transporterId quantity : Int)
    (orderType : String) : Int × SystemState :=
  match st.findSupplier supplierId, st.findRetailer retailerId,
        st.findProduct productId, st.findTransporter transporterId with
  | some supplier, some retailer, some product, some transporter =>
    if !(supplier.productIds.contains productId) then (-1, st)
    else if !(product.hasEnoughStock quantity) then (-1, st)
    else
      let productCost := product.price * (quantity : ℚ)
      let distance := dist supplier.latitude supplier.longitude
        retailer.latitude retailer.longitude
      let transportCost := transporter.calculateTransportCost distance
      let tx : Transaction :=
        { id := st.nextTransactionId, supplierId := supplierId,
          retailerId := retailerId, productId := productId,
          transporterId := transporterId, quantity := quantity,
          productCost := productCost, transportCost := transportCost,
          totalCost := productCost + transportCost, timestamp := ts,
          status := TxStatus.Pending, orderType := orderType }
      if !(st.contracts.all (fun c => c.validate tx)) then
        let failedTx := { tx with status := TxStatus.Failed }
        let txs := st.transactions ++ [failedTx]
        match st.blockchain.addBlock newHash ts
            ("Failed Transaction | " ++ failedTx.getBlockData) with
        | none => (-1, { st with transactions := txs })
        | some bc =>
          (st.nextTransactionId,
           { st with
             transactions := txs, blockchain := bc,
             nextTransactionId := st.nextTransactionId + 1 })
      else if (retailer.deductCredit tx.totalCost).1 then
        let retailers2 := updateFirst (fun r => r.id == retailerId)
          (fun r => (r.deductCredit tx.totalCost).2) st.retailers
        let products2 := updateFirst (fun p => p.id == productId)
          (fun p => p.updateStock (-quantity)) st.products
        let doneTx := { tx with status := TxStatus.Completed }
        let txs := st.transactions ++ [doneTx]
        match st.blockchain.addBlock newHash ts
            ("Completed Transaction | " ++ doneTx.getBlockData) with
        | none =>
          (-1, { st with
                 retailers := retailers2, products := products2,
                 transactions := txs })
        | some bc =>
          (st.nextTransactionId,
           { st with
             retailers := retailers2, products := products2,
             transactions := txs, blockchain := bc,
             nextTransactionId := st.nextTransactionId + 1 })
      else
        let failedTx := { tx with status := TxStatus.Failed }
        let txs := st.transactions ++ [failedTx]
        match st.blockchain.addBlock newHash ts
            ("Failed Transaction (Credit) | " ++ failedTx.getBlockData) with
        | none => (-1, { st with transactions := txs })
        | some bc =>
          (st.nextTransactionId,
           { st with
             transactions := txs, blockchain := bc,
             nextTransactionId := st.nextTransactionId + 1 })
  | _, _, _, _ => (-1, st)

/-- Arguments of one pipeline call, with its environment inputs. -/
structure PipelineCall where
  dist : ℚ → ℚ → ℚ → ℚ → ℚ
  ts : String
  newHash : String
  supplierId : Int
  retailerId : Int
  productId : Int
  transporterId : Int
  quantity : Int
  orderType : String

/-- Run a sequence of pipeline calls, threading the state. -/
def runCalls : List PipelineCall → SystemState → SystemState
  | [], st => st
  | c :: cs, st =>
    runCalls cs (createTransaction c.dist c.ts c.newHash st c.supplierId
      c.retailerId c.productId c.transporterId c.quantity c.orderType).2

/-- Loop state of the scanning minimum searches in
`optimizeDistributionRoute`: starting from best index 0 and an empty minimum
(the C++ sentinel `std::numeric_limits<double>::max()`, strictly above every
actual distance), take index `i` whenever `ok i` holds and `f i` is strictly
below the minimum so far — so the first index attaining the minimum wins. -/
def scanMinAux (f : ℕ → ℚ) (ok : ℕ → Bool) :
    List ℕ → ℕ × Option ℚ → ℕ × Option ℚ
  | [], acc => acc
  | i :: is, acc =>
    scanMinAux f ok is
      (if ok i && (match acc.2 with
                   | none => true
                   | some m => decide (f i < m)) then (i, some (f i)) else acc)

/-- Index of the first minimizer of `f` among indices `< n` satisfying `ok`
(index 0 when no index qualifies), as computed by the C++ scanning loops. -/
def scanMin (f : ℕ → ℚ) (ok : ℕ → Bool) (n : ℕ) : ℕ :=
  (scanMinAux f ok (List.range n) (0, none)).1

/-- Greedy selection loop of `optimizeDistributionRoute`: `k` more stops to
choose; each step appends the first nearest not-yet-visited retailer index to
the current one. -/
def buildRoute (d : ℕ → ℕ → ℚ) (n : ℕ) : ℕ → List ℕ → ℕ → List ℕ
  | 0, route, _ => route
  | k + 1, route, current =>
    let next := scanMin (d current) (fun j => !(route.contains j)) n
    buildRoute d n k (route ++ [next]) next

/-- Sum of consecutive stop-to-stop distances along a route, the loop
`for i in 0..len-2: total += distances[route[i]][route[i+1]]`. -/
def consecSum (d : ℕ → ℕ → ℚ) : List ℕ → ℚ
  | [] => 0
  | [_] => 0
  | a :: b :: rest => d a b + consecSum d (b :: rest)

/-- Core of `ProductionPlanningSystem::optimizeDistributionRoute`, at the
level of retailer indices `0..n-1` in store order (the C++ id-to-index maps
are a bijective relabelling when retailer ids are distinct, which the id
counter guarantees).  `supDist i` is the supplier-to-retailer-i distance,
`retSup i` the return-leg distance, `d i j` the retailer-to-retailer
distance.  Fewer than 2 retailers is the thrown precondition error (`none`).
Otherwise: start at the retailer nearest the supplier, repeatedly append the
nearest unvisited retailer, and report the route with the total distance
supplier-to-first plus consecutive legs plus last-back-to-supplier. -/
def optimizeDistributionRoute (supDist retSup : ℕ → ℚ) (d : ℕ → ℕ → ℚ)
    (n : ℕ) : Option (List ℕ × ℚ) :=
  if n < 2 then none
  else
    let first := scanMin supDist (fun _ => true) n
    let route := buildRoute d n (n - 1) [first] first
    some (route,
      supDist (route.headD 0) + consecSum d route + retSup (route.getLastD 0))

/-- Add `v` to the entry of key `k` of an association list, appending a new
entry when the key is absent (`unordered_map::operator[] +=`). -/
def bumpAssoc : List (Int × Int) → Int → Int → List (Int × Int)
  | [], k, v => [(k, v)]
  | (k0, v0) :: rest, k, v =>
    if k0 == k then (k0, v0 + v) :: rest else (k0, v0) :: bumpAssoc rest k v

/-- Overwrite the entry of key `k` of an association list, appending a new
entry when the key is absent (`unordered_map::operator[] =`). -/
def setAssoc : List (Int × Int) → Int → Int → List (Int × Int)
  | [], k, v => [(k, v)]
  | (k0, v0) :: rest, k, v =>
    if k0 == k then (k0, v) :: rest else (k0, v0) :: setAssoc rest k v

/-- Read an association list, defaulting to 0 (`unordered_map::operator[]` on
an absent key default-constructs the value). -/
def lookupAssoc (m : List (Int × Int)) (k : Int) : Int :=
  match m.find? (fun p => p.1 == k) with
  | some p => p.2
  | none => 0

/-- Sum of the values of an association list, as accumulated by the C++
range-for loops over the maps. -/
def assocSum (m : List (Int × Int)) : Int :=
  m.foldl (fun s p => s + p.2) 0

/-- Demand analysis of `optimizeInventory`: total completed quantity per
retailer for the chosen product. -/
def retailerDemandMap (txs : List Transaction) (productId : Int) :
    List (Int × Int) :=
  txs.foldl
    (fun m t =>
      if t.productId == productId && t.status == TxStatus.Completed then
        bumpAssoc m t.retailerId t.quantity
      else m)
    []

/-- Per-retailer allocation of `optimizeInventory` before the rescale pass:
proportional share (`static_cast<int>` of `totalStock * demand/totalDemand`)
when there is historical demand, an equal split otherwise (the `int / size_t`
division, read for the claim's non-negative stock), then the 10-unit safety
floor. -/
def rawAllocation (totalStock totalDemand demand : Int) (numRetailers : ℕ) :
    Int :=
  let allocation : Int :=
    if 0 < totalDemand then
      ratTrunc ((totalStock : ℚ) * ((demand : ℚ) / (totalDemand : ℚ)))
    else
      (totalStock.toNat / numRetailers : ℕ)
  max allocation 10

/-- The `optimalAllocation` map after the per-retailer loop of
`optimizeInventory`. -/
def optimalAllocation (retailers : List Retailer)
    (demandMap : List (Int × Int)) (totalStock totalDemand : Int) :
    List (Int × Int) :=
  retailers.foldl
    (fun m r =>
      setAssoc m r.id
        (rawAllocation totalStock totalDemand (lookupAssoc demandMap r.id)
          retailers.length))
    []

/-- The allocation reported by `optimizeInventory`: the per-retailer
allocations, rescaled by `totalStock / totalAllocation` with truncation when
their sum exceeds the available stock. -/
def finalAllocation (retailers : List Retailer) (txs : List Transaction)
    (productId : Int) (totalStock : Int) : List (Int × Int) :=
  let demandMap := retailerDemandMap txs productId
  let totalDemand := assocSum demandMap
  let alloc := optimalAllocation retailers demandMap totalStock totalDemand
  let totalAllocation := assocSum alloc
  if totalStock < totalAllocation then
    let factor : ℚ := (totalStock : ℚ) / (totalAllocation : ℚ)
    alloc.map (fun p => (p.1, ratTrunc ((p.2 : ℚ) * factor)))
  else alloc

/-- Append a list of blocks one `addBlock` at a time (hash, timestamp and
payload each supplied); `none` when some append hits the empty-chain error. -/
def appendBlocks : Blockchain → List (String × String × String) → Option Blockchain
  | bc, [] => some bc
  | bc, (h, ts, d) :: rest =>
    match bc.addBlock h ts d with
    | none => none
    | some bc2 => appendBlocks bc2 rest


/-- A small concrete state used by witnesses: one product, one supplier
carrying it, one retailer, one transporter, the shipped price-threshold
contract and a genesis-only ledger. -/
def demoState : SystemState :=
  { products := [{ id := 1, name := "Rice", price := 5, stock := 1000 }],
    suppliers := [{ id := 1, name := "Malayan Agro", location := "KL", branch := "KL", latitude := 3, longitude := 101, productIds := [1] }],
    retailers := [{ id := 1, name := "SuperMart", location := "KL", latitude := 3, longitude := 101, creditBalance := 10000, annualCreditBalance := 100000, productIds := [] }],
    transporters := [{ id := 1, name := "FastTruck", transportType := "Ground", costPerKm := 2, maxCapacity := 2000 }],
    transactions := [],
    contracts := [SmartContract.priceThreshold 4000],
    blockchain := mkBlockchain "p" "g" "t0",
    nextProductId := 2, nextSupplierId := 2, nextRetailerId := 2,
    nextTransporterId := 2, nextTransactionId := 1 }

/-! Helper lemmas about the ledger. -/

/-- The linkage loop checks exactly the chain relation between neighbours. -/
lemma chainLinked_iff_chain (L : List Block) :
    chainLinked L = true ↔
      List.Chain' (fun x y => y.previousHash = x.currentHash) L := by
  induction L with
  | nil => simp [chainLinked]
  | cons a L ih =>
    cases L with
    | nil => simp [chainLinked]
    | cons b rest =>
      rw [List.chain'_cons]
      simp only [chainLinked, Bool.and_eq_true, beq_iff_eq]
      rw [ih]

/-- `addBlock` on a chain with a known last block. -/
lemma addBlock_last (bc : Blockchain) (newHash ts blockData : String)
    (latest : Block) (hlast : bc.chain.getLast? = some latest) :
    bc.addBlock newHash ts blockData =
      some { chain := bc.chain ++
        [{ blockNumber := latest.blockNumber + 1, currentHash := newHash,
           previousHash := latest.currentHash, timestamp := ts,
           data := blockData }] } := by
  unfold Blockchain.addBlock
  rw [hlast]

/-- A nonempty chain always accepts an append, and the chain grows by one. -/
lemma addBlock_of_ne_nil (bc : Blockchain) (hne : bc.chain ≠ [])
    (newHash ts blockData : String) :
    ∃ bc2, bc.addBlock newHash ts blockData = some bc2 ∧
      bc2.chain.length = bc.chain.length + 1 ∧ bc2.chain ≠ [] := by
  obtain ⟨latest, hlast⟩ := Option.isSome_iff_exists.mp
    (List.getLast?_isSome.mpr hne)
  refine ⟨_, addBlock_last bc newHash ts blockData latest hlast, ?_, ?_⟩
  · simp
  · simp

/-- Appending through `addBlock` preserves linkage. -/
lemma chainLinked_addBlock (bc bc2 : Blockchain) (newHash ts blockData : String)
    (hok : chainLinked bc.chain = true)
    (h : bc.addBlock newHash ts blockData = some bc2) :
    chainLinked bc2.chain = true := by
  unfold Blockchain.addBlock at h
  cases hlast : bc.chain.getLast? with
  | none => rw [hlast] at h; exact absurd h (by simp)
  | some latest =>
    rw [hlast] at h
    obtain rfl : bc2 = _ := by exact (Option.some_inj.mp h).symm
    rw [chainLinked_iff_chain] at hok ⊢
    rw [List.chain'_append]
    refine ⟨hok, by simp, ?_⟩
    intro x hx y hy
    simp only [List.head?_cons, Option.mem_def, Option.some_inj] at hy
    rw [hlast] at hx
    simp only [Option.mem_def, Option.some_inj] at hx
    subst hx; subst hy
    rfl

/-- `appendBlocks` preserves linkage and nonemptiness. -/
lemma appendBlocks_invariant (items : List (String × String × String)) :
    ∀ bc bc2, chainLinked bc.chain = true → bc.chain ≠ [] →
      appendBlocks bc items = some bc2 →
      chainLinked bc2.chain = true ∧ bc2.chain ≠ [] := by
  induction items with
  | nil =>
    intro bc bc2 hok hne h
    simp only [appendBlocks, Option.some_inj] at h
    subst h; exact ⟨hok, hne⟩
  | cons item rest ih =>
    intro bc bc2 hok hne h
    obtain ⟨hh, ts, d⟩ := item
    simp only [appendBlocks] at h
    cases hadd : bc.addBlock hh ts d with
    | none => rw [hadd] at h; exact absurd h (by simp)
    | some bcMid =>
      rw [hadd] at h
      obtain ⟨_, hadd2, _, hne2⟩ := addBlock_of_ne_nil bc hne hh ts d
      rw [hadd] at hadd2
      obtain rfl : bcMid = _ := Option.some_inj.mp hadd2.symm |>.symm
      exact ih bcMid bc2 (chainLinked_addBlock bc bcMid hh ts d hok hadd)
        hne2 h

/-- C5: Ledger verification (`isChainValid`) returns true iff every block
after the first carries its predecessor's hash (vacuously true for length
at most 1); every ledger built from a fresh ledger by `addBlock` appends
satisfies this linkage, each appended block carrying sequence number
`lastBlock.number + 1` and predecessor token equal to the last block's own
token. -/
theorem claim_C5_chain_linkage :
    (∀ bc : Blockchain, bc.isChainValid = true ↔
      ∀ (i : ℕ) (h : i + 1 < bc.chain.length),
        (bc.chain.get ⟨i + 1, h⟩).previousHash =
          (bc.chain.get ⟨i, Nat.lt_of_succ_lt h⟩).currentHash) ∧
    (∀ gp gh ts items bc2,
      appendBlocks (mkBlockchain gp gh ts) items = some bc2 →
      bc2.isChainValid = true) ∧
    (∀ (bc : Blockchain) (newHash ts blockData : String) (latest : Block),
      bc.chain.getLast? = some latest →
      bc.addBlock newHash ts blockData =
        some { chain := bc.chain ++
          [{ blockNumber := latest.blockNumber + 1, currentHash := newHash,
             previousHash := latest.currentHash, timestamp := ts,
             data := blockData }] }) := by
  refine ⟨?_, ?_, ?_⟩
  · intro bc
    unfold Blockchain.isChainValid
    rw [chainLinked_iff_chain, List.chain'_iff_get]
    constructor
    · intro h i hi
      have := h i (by omega)
      exact this
    · intro h i hi
      have := h i (by omega)
      exact this
  · intro gp gh ts items bc2 h
    have hgen : chainLinked (mkBlockchain gp gh ts).chain = true := by
      simp [mkBlockchain, chainLinked]
    have hne : (mkBlockchain gp gh ts).chain ≠ [] := by
      simp [mkBlockchain]
    exact (appendBlocks_invariant items _ bc2 hgen hne h).1
  · intro bc newHash ts blockData latest hlast
    exact addBlock_last bc newHash ts blockData latest hlast

/-- Witness for C5 at a concrete chain: a fresh ledger with one appended
block verifies, with the appended block as specified. -/
theorem claim_C5_witness :
    Blockchain.isChainValid
      ⟨[{ blockNumber := 0, currentHash := "g", previousHash := "p",
          timestamp := "t0", data := "Genesis Block" },
        { blockNumber := 1, currentHash := "h1", previousHash := "g",
          timestamp := "t1", data := "d1" }]⟩ = true :=
  claim_C5_chain_linkage.2.1 "p" "g" "t0" [("h1", "t1", "d1")] _ rfl

/-- The load loop on lines that all deserialize finishes successfully with
exactly the parsed blocks appended. -/
lemma loadChainLoop_all_ok (lines : List String)
    (h : ∀ l ∈ lines, (Block.deserialize l).isSome = true) :
    ∀ acc, loadChainLoop lines acc =
      (true, acc ++ loadLines Block.deserialize lines) := by
  induction lines with
  | nil => intro acc; simp [loadChainLoop, loadLines]
  | cons l ls ih =>
    intro acc
    have hl : (Block.deserialize l).isSome = true := h l (by simp)
    obtain ⟨b, hb⟩ := Option.isSome_iff_exists.mp hl
    simp only [loadChainLoop, loadLines, hb]
    rw [ih (fun x hx => h x (by simp [hx])) (acc ++ [b])]
    simp

/-- The load loop aborts at the first malformed line, keeping exactly the
blocks parsed before it. -/
lemma loadChainLoop_abort (pre : List String) (bad : String)
    (post : List String)
    (hpre : ∀ l ∈ pre, (Block.deserialize l).isSome = true)
    (hbad : Block.deserialize bad = none) :
    ∀ acc, loadChainLoop (pre ++ bad :: post) acc =
      (false, acc ++ loadLines Block.deserialize pre) := by
  induction pre with
  | nil =>
    intro acc
    simp [loadChainLoop, loadLines, hbad]
  | cons l ls ih =>
    intro acc
    have hl : (Block.deserialize l).isSome = true := hpre l (by simp)
    obtain ⟨b, hb⟩ := Option.isSome_iff_exists.mp hl
    simp only [List.cons_append, loadChainLoop, loadLines, hb, List.append_eq]
    rw [ih (fun x hx => hpre x (by simp [hx])) (acc ++ [b])]
    simp

/-- C7 counterexample: restoring from a source whose only line is malformed
leaves the Ledger empty, so the Ledger is not non-empty after every restore.
-/
theorem claim_C7_counterexample :
    (Blockchain.loadFromFile ["x"] "p" "g" "t").2.chain = [] := rfl

/-- C7 (amended): a freshly constructed Ledger has exactly one block with
sequence number 0; restoring from an empty source recreates such a genesis
block; and a restore whose lines all deserialize leaves the Ledger non-empty
— but a restore that hits a malformed line aborts and can leave the Ledger
empty. -/
theorem claim_C7_genesis :
    (∀ gp gh ts, (mkBlockchain gp gh ts).chain.length = 1 ∧
      ∀ b ∈ (mkBlockchain gp gh ts).chain, b.blockNumber = 0) ∧
    (∀ gp gh ts,
      Blockchain.loadFromFile [] gp gh ts = (true, mkBlockchain gp gh ts)) ∧
    (∀ lines gp gh ts,
      (∀ l ∈ lines, (Block.deserialize l).isSome = true) →
      (Blockchain.loadFromFile lines gp gh ts).2.chain ≠ []) := by
  refine ⟨?_, ?_, ?_⟩
  · intro gp gh ts
    constructor
    · rfl
    · intro b hb
      simp only [mkBlockchain, List.mem_singleton] at hb
      subst hb; rfl
  · intro gp gh ts
    rfl
  · intro lines gp gh ts h
    unfold Blockchain.loadFromFile
    rw [loadChainLoop_all_ok lines h []]
    cases lines with
    | nil => simp [loadLines, mkBlockchain]
    | cons l ls =>
      have hl : (Block.deserialize l).isSome = true := h l (by simp)
      obtain ⟨b, hb⟩ := Option.isSome_iff_exists.mp hl
      simp [loadLines, hb]

/-- Witness for C7 at concrete inputs: the fresh ledger, the empty restore,
and a restore of one well-formed line leaving a non-empty ledger. -/
theorem claim_C7_witness :
    ((mkBlockchain "p" "g" "t").chain.length = 1 ∧
      ∀ b ∈ (mkBlockchain "p" "g" "t").chain, b.blockNumber = 0) ∧
    Blockchain.loadFromFile [] "p" "g" "t" = (true, mkBlockchain "p" "g" "t") ∧
    (Blockchain.loadFromFile ["0|a|b|c|d"] "p" "g" "t").2.chain ≠ [] :=
  ⟨claim_C7_genesis.1 "p" "g" "t",
   claim_C7_genesis.2.1 "p" "g" "t",
   claim_C7_genesis.2.2 ["0|a|b|c|d"] "p" "g" "t" (by decide)⟩

/-- C8 counterexample: loading block lines good, malformed, good returns
failure with only the first block loaded — the well-formed line after the
malformed one is dropped and the load as a whole is aborted, contradicting
skip-and-continue for Blocks. -/
theorem claim_C8_counterexample :
    (Blockchain.loadFromFile
        ["0|h0|p0|t0|d0", "x", "1|h1|h0|t1|d1"] "p" "g" "t").1 = false ∧
    (Blockchain.loadFromFile
        ["0|h0|p0|t0|d0", "x", "1|h1|h0|t1|d1"] "p" "g" "t").2.chain.length
      = 1 :=
  ⟨rfl, rfl⟩

/-- C8 (amended): the catalog record loads (Products, Suppliers, Retailers,
Transporters, Transactions, all instances of `loadLines`) skip a malformed
line and keep every well-formed line before and after it; the Block load
instead aborts at the first malformed line: it returns failure and keeps
exactly the blocks parsed before that line, dropping everything after. -/
theorem claim_C8_malformed_lines :
    (∀ (α : Type) (des : String → Option α) (pre : List String) (bad : String)
      (post : List String), des bad = none →
      loadLines des (pre ++ bad :: post) =
        loadLines des pre ++ loadLines des post) ∧
    (∀ (pre : List String) (bad : String) (post : List String) (gp gh ts : String),
      (∀ l ∈ pre, (Block.deserialize l).isSome = true) →
      Block.deserialize bad = none →
      Blockchain.loadFromFile (pre ++ bad :: post) gp gh ts =
        (false, { chain := loadLines Block.deserialize pre })) := by
  constructor
  · intro α des pre bad post hbad
    induction pre with
    | nil => simp [loadLines, hbad]
    | cons l ls ih =>
      cases hl : des l with
      | none => simp [loadLines, hl, ih]
      | some a => simp [loadLines, hl, ih]
  · intro pre bad post gp gh ts hpre hbad
    unfold Blockchain.loadFromFile
    rw [loadChainLoop_abort pre bad post hpre hbad []]
    simp

/-- Witness for C8 at concrete inputs: a product load skips the malformed
middle line; a block load aborts on it. -/
theorem claim_C8_witness :
    loadLines Product.deserialize (["1|A|2.5|10"] ++ "zz" :: ["2|B|3|5"]) =
      loadLines Product.deserialize ["1|A|2.5|10"] ++
        loadLines Product.deserialize ["2|B|3|5"] ∧
    Blockchain.loadFromFile (["0|h0|p0|t0|d0"] ++ "x" :: ["1|h1|h0|t1|d1"])
        "p" "g" "t" =
      (false, { chain := loadLines Block.deserialize ["0|h0|p0|t0|d0"] }) :=
  ⟨claim_C8_malformed_lines.1 Product Product.deserialize
      ["1|A|2.5|10"] "zz" ["2|B|3|5"] (by decide),
   claim_C8_malformed_lines.2 ["0|h0|p0|t0|d0"] "x" ["1|h1|h0|t1|d1"]
      "p" "g" "t" (by decide) (by decide)⟩

/-! Helper lemmas about the transaction pipeline. -/

/-- Complete case analysis of `createTransaction` from a state whose ledger
is non-empty (an invariant of every reachable state: the chain starts with a
genesis block and only grows).  Either the throwing pre-checks fail and
nothing at all happens, or a transaction is constructed, stored with status
Failed or Completed, one ledger block is appended, and the id counter
advances. -/
lemma createTransaction_cases (dist : ℚ → ℚ → ℚ → ℚ → ℚ) (ts newHash : String)
    (st : SystemState) (sId rId pId tId qty : Int) (ot : String)
    (hbc : st.blockchain.chain ≠ []) :
    (passesPreChecks st sId rId pId tId qty = false ∧
      createTransaction dist ts newHash st sId rId pId tId qty ot = (-1, st)) ∨
    (∃ supplier retailer product transporter tx bc2,
      st.findSupplier sId = some supplier ∧
      st.findRetailer rId = some retailer ∧
      st.findProduct pId = some product ∧
      st.findTransporter tId = some transporter ∧
      passesPreChecks st sId rId pId tId qty = true ∧
      qty ≤ product.stock ∧
      tx.id = st.nextTransactionId ∧
      tx.quantity = qty ∧
      tx.totalCost = product.price * (qty : ℚ) +
        transporter.calculateTransportCost (dist supplier.latitude
          supplier.longitude retailer.latitude retailer.longitude) ∧
      bc2.chain.length = st.blockchain.chain.length + 1 ∧
      ((tx.status = TxStatus.Failed ∧
        createTransaction dist ts newHash st sId rId pId tId qty ot =
          (st.nextTransactionId,
           { st with
             transactions := st.transactions ++ [tx], blockchain := bc2,
             nextTransactionId := st.nextTransactionId + 1 })) ∨
       (tx.status = TxStatus.Completed ∧
        (retailer.deductCredit tx.totalCost).1 = true ∧
        createTransaction dist ts newHash st sId rId pId tId qty ot =
          (st.nextTransactionId,
           { st with
             retailers := updateFirst (fun r => r.id == rId)
               (fun r => (r.deductCredit tx.totalCost).2) st.retailers,
             products := updateFirst (fun p => p.id == pId)
               (fun p => p.updateStock (-qty)) st.products,
             transactions := st.transactions ++ [tx], blockchain := bc2,
             nextTransactionId := st.nextTransactionId + 1 })))) := by
  cases hS : st.findSupplier sId with
  | none =>
    left
    exact ⟨by simp [passesPreChecks, hS], by simp [createTransaction, hS]⟩
  | some supplier =>
  cases hR : st.findRetailer rId with
  | none =>
    left
    exact ⟨by simp [passesPreChecks, hS, hR], by simp [createTransaction, hS, hR]⟩
  | some retailer =>
  cases hP : st.findProduct pId with
  | none =>
    left
    exact ⟨by simp [passesPreChecks, hS, hR, hP],
      by simp [createTransaction, hS, hR, hP]⟩
  | some product =>
  cases hT : st.findTransporter tId with
  | none =>
    left
    exact ⟨by simp [passesPreChecks, hS, hR, hP, hT],
      by simp [createTransaction, hS, hR, hP, hT]⟩
  | some transporter =>
  cases hContains : supplier.productIds.contains pId with
  | false =>
    left
    constructor
    · simp only [passesPreChecks, hS, hR, hP, hT]
      rw [hContains]
      simp
    · simp only [createTransaction, hS, hR, hP, hT]
      rw [hContains]
      simp
  | true =>
  cases hStock : product.hasEnoughStock qty with
  | false =>
    left
    constructor
    · simp only [passesPreChecks, hS, hR, hP, hT]
      rw [hContains, hStock]
      simp
    · simp only [createTransaction, hS, hR, hP, hT]
      rw [hContains, hStock]
      simp
  | true =>
  right
  have hstockle : qty ≤ product.stock := by
    have h2 := hStock
    unfold Product.hasEnoughStock at h2
    exact of_decide_eq_true h2
  have hpass : passesPreChecks st sId rId pId tId qty = true := by
    simp only [passesPreChecks, hS, hR, hP, hT]
    rw [hContains, hStock]
    rfl
  refine ⟨supplier, retailer, product, transporter, ?_⟩
  cases hPolicy : st.contracts.all (fun c => c.validate
        { id := st.nextTransactionId, supplierId := sId, retailerId := rId, productId := pId, transporterId := tId, quantity := qty, productCost := product.price * (qty : ℚ), transportCost := transporter.calculateTransportCost (dist supplier.latitude supplier.longitude retailer.latitude retailer.longitude), totalCost := product.price * (qty : ℚ) + transporter.calculateTransportCost (dist supplier.latitude supplier.longitude retailer.latitude retailer.longitude), timestamp := ts, status := TxStatus.Pending, orderType := ot }) with
  | false =>
    obtain ⟨bc2, hadd, hlen, _⟩ := addBlock_of_ne_nil st.blockchain hbc newHash
      ts ("Failed Transaction | " ++ Transaction.getBlockData
        { id := st.nextTransactionId, supplierId := sId, retailerId := rId, productId := pId, transporterId := tId, quantity := qty, productCost := product.price * (qty : ℚ), transportCost := transporter.calculateTransportCost (dist supplier.latitude supplier.longitude retailer.latitude retailer.longitude), totalCost := product.price * (qty : ℚ) + transporter.calculateTransportCost (dist supplier.latitude supplier.longitude retailer.latitude retailer.longitude), timestamp := ts, status := TxStatus.Failed, orderType := ot })
    refine ⟨{ id := st.nextTransactionId, supplierId := sId, retailerId := rId, productId := pId, transporterId := tId, quantity := qty, productCost := product.price * (qty : ℚ), transportCost := transporter.calculateTransportCost (dist supplier.latitude supplier.longitude retailer.latitude retailer.longitude), totalCost := product.price * (qty : ℚ) + transporter.calculateTransportCost (dist supplier.latitude supplier.longitude retailer.latitude retailer.longitude), timestamp := ts, status := TxStatus.Failed, orderType := ot },
      bc2, rfl, rfl, rfl, rfl, hpass, hstockle, rfl, rfl, rfl, hlen, ?_⟩
    left
    refine ⟨rfl, ?_⟩
    simp only [createTransaction, hS, hR, hP, hT]
    rw [hContains, hStock, hPolicy, hadd]
    simp
  | true =>
    cases hCredit : (retailer.deductCredit (product.price * (qty : ℚ) +
        transporter.calculateTransportCost (dist supplier.latitude
          supplier.longitude retailer.latitude retailer.longitude))).1 with
    | false =>
      obtain ⟨bc2, hadd, hlen, _⟩ := addBlock_of_ne_nil st.blockchain hbc
        newHash ts ("Failed Transaction (Credit) | " ++
          Transaction.getBlockData
        { id := st.nextTransactionId, supplierId := sId, retailerId := rId, productId := pId, transporterId := tId, quantity := qty, productCost := product.price * (qty : ℚ), transportCost := transporter.calculateTransportCost (dist supplier.latitude supplier.longitude retailer.latitude retailer.longitude), totalCost := product.price * (qty : ℚ) + transporter.calculateTransportCost (dist supplier.latitude supplier.longitude retailer.latitude retailer.longitude), timestamp := ts, status := TxStatus.Failed, orderType := ot })
      refine ⟨{ id := st.nextTransactionId, supplierId := sId, retailerId := rId, productId := pId, transporterId := tId, quantity := qty, productCost := product.price * (qty : ℚ), transportCost := transporter.calculateTransportCost (dist supplier.latitude supplier.longitude retailer.latitude retailer.longitude), totalCost := product.price * (qty : ℚ) + transporter.calculateTransportCost (dist supplier.latitude supplier.longitude retailer.latitude retailer.longitude), timestamp := ts, status := TxStatus.Failed, orderType := ot },
        bc2, rfl, rfl, rfl, rfl, hpass, hstockle, rfl, rfl, rfl, hlen, ?_⟩
      left
      refine ⟨rfl, ?_⟩
      simp only [createTransaction, hS, hR, hP, hT]
      rw [hContains, hStock, hPolicy, hCredit, hadd]
      simp
    | true =>
      obtain ⟨bc2, hadd, hlen, _⟩ := addBlock_of_ne_nil st.blockchain hbc
        newHash ts ("Completed Transaction | " ++ Transaction.getBlockData
        { id := st.nextTransactionId, supplierId := sId, retailerId := rId, productId := pId, transporterId := tId, quantity := qty, productCost := product.price * (qty : ℚ), transportCost := transporter.calculateTransportCost (dist supplier.latitude supplier.longitude retailer.latitude retailer.longitude), totalCost := product.price * (qty : ℚ) + transporter.calculateTransportCost (dist supplier.latitude supplier.longitude retailer.latitude retailer.longitude), timestamp := ts, status := TxStatus.Completed, orderType := ot })
      refine ⟨{ id := st.nextTransactionId, supplierId := sId, retailerId := rId, productId := pId, transporterId := tId, quantity := qty, productCost := product.price * (qty : ℚ), transportCost := transporter.calculateTransportCost (dist supplier.latitude supplier.longitude retailer.latitude retailer.longitude), totalCost := product.price * (qty : ℚ) + transporter.calculateTransportCost (dist supplier.latitude supplier.longitude retailer.latitude retailer.longitude), timestamp := ts, status := TxStatus.Completed, orderType := ot },
        bc2, rfl, rfl, rfl, rfl, hpass, hstockle, rfl, rfl, rfl, hlen, ?_⟩
      right
      refine ⟨rfl, hCredit, ?_⟩
      simp only [createTransaction, hS, hR, hP, hT]
      rw [hContains, hStock, hPolicy, hCredit, hadd]
      simp

/-- C1: whenever the pre-checks pass, a Transaction is constructed and the
call returns the current counter value and advances the counter by exactly
one — whether the stored outcome is Completed or Failed (policy or credit
rejection); a call failing the existence/product/stock checks returns -1 (no
transaction id) and leaves the state, hence the counter, unchanged.  So the
ids returned by constructing calls strictly increase by 1 in construction
order. -/
theorem claim_C1_id_monotonic (dist : ℚ → ℚ → ℚ → ℚ → ℚ) (ts newHash : String)
    (st : SystemState) (sId rId pId tId qty : Int) (ot : String)
    (hbc : st.blockchain.chain ≠ []) :
    (passesPreChecks st sId rId pId tId qty = true →
      (createTransaction dist ts newHash st sId rId pId tId qty ot).1 =
        st.nextTransactionId ∧
      (createTransaction dist ts newHash st sId rId pId tId qty
          ot).2.nextTransactionId = st.nextTransactionId + 1) ∧
    (passesPreChecks st sId rId pId tId qty = false →
      (createTransaction dist ts newHash st sId rId pId tId qty ot).1 = -1 ∧
      (createTransaction dist ts newHash st sId rId pId tId qty ot).2 = st) := by
  rcases createTransaction_cases dist ts newHash st sId rId pId tId qty ot hbc
    with ⟨hf, heq⟩ |
      ⟨s, r, p, t, tx, bc2, hS, hR, hP, hT, hpass, _, _, _, _, _, hout⟩
  · constructor
    · intro h; rw [h] at hf; cases hf
    · intro _; rw [heq]; exact ⟨rfl, rfl⟩
  · constructor
    · intro _
      rcases hout with ⟨_, heq⟩ | ⟨_, _, heq⟩ <;> rw [heq] <;> exact ⟨rfl, rfl⟩
    · intro h; rw [h] at hpass; cases hpass

/-- Witness for C1: a passing call on the demo state returns the counter and
advances it. -/
theorem claim_C1_witness :
    (createTransaction (fun _ _ _ _ => 2) "t1" "h1" demoState 1 1 1 1 100
        "Regular").1 = demoState.nextTransactionId ∧
    (createTransaction (fun _ _ _ _ => 2) "t1" "h1" demoState 1 1 1 1 100
        "Regular").2.nextTransactionId = demoState.nextTransactionId + 1 :=
  (claim_C1_id_monotonic (fun _ _ _ _ => 2) "t1" "h1" demoState 1 1 1 1 100
    "Regular" (by decide)).1 (by decide)

/-- C2: when a lookup misses, the supplier does not carry the product, or
stock is insufficient, the call records no Transaction, writes no Ledger
entry and changes no entity state (the state is exactly unchanged); whereas
once the pre-checks pass (so in particular on policy and credit failures,
which store a Failed transaction) exactly one transaction is appended to the
store and exactly one Ledger block is written, and a Failed store changes no
product and no retailer. -/
theorem claim_C2_precheck_failures_unrecorded (dist : ℚ → ℚ → ℚ → ℚ → ℚ)
    (ts newHash : String) (st : SystemState) (sId rId pId tId qty : Int)
    (ot : String) (hbc : st.blockchain.chain ≠ []) :
    (passesPreChecks st sId rId pId tId qty = false →
      createTransaction dist ts newHash st sId rId pId tId qty ot = (-1, st)) ∧
    (passesPreChecks st sId rId pId tId qty = true →
      ∃ tx, (createTransaction dist ts newHash st sId rId pId tId qty
          ot).2.transactions = st.transactions ++ [tx] ∧
        (createTransaction dist ts newHash st sId rId pId tId qty
          ot).2.blockchain.chain.length = st.blockchain.chain.length + 1 ∧
        (tx.status = TxStatus.Failed ∨ tx.status = TxStatus.Completed) ∧
        (tx.status = TxStatus.Failed →
          (createTransaction dist ts newHash st sId rId pId tId qty
            ot).2.products = st.products ∧
          (createTransaction dist ts newHash st sId rId pId tId qty
            ot).2.retailers = st.retailers)) := by
  rcases createTransaction_cases dist ts newHash st sId rId pId tId qty ot hbc
    with ⟨hf, heq⟩ |
      ⟨s, r, p, t, tx, bc2, hS, hR, hP, hT, hpass, _, _, _, _, hlen, hout⟩
  · constructor
    · intro _; exact heq
    · intro h; rw [h] at hf; cases hf
  · constructor
    · intro h; rw [h] at hpass; cases hpass
    · intro _
      rcases hout with ⟨hstat, heq⟩ | ⟨hstat, hded, heq⟩
      · exact ⟨tx, by rw [heq], by rw [heq]; exact hlen, Or.inl hstat,
          fun _ => by rw [heq]; exact ⟨rfl, rfl⟩⟩
      · refine ⟨tx, by rw [heq], by rw [heq]; exact hlen, Or.inr hstat, ?_⟩
        intro hfail
        rw [hstat] at hfail
        cases hfail

/-- Witness for C2: on the demo state, a call with an unknown supplier id
leaves the state unchanged, and a passing call stores one transaction with
one ledger block. -/
theorem claim_C2_witness :
    (createTransaction (fun _ _ _ _ => 2) "t1" "h1" demoState 99 1 1 1 100
      "Regular" = (-1, demoState)) ∧
    (∃ tx, (createTransaction (fun _ _ _ _ => 2) "t1" "h1" demoState 1 1 1 1
        100 "Regular").2.transactions = demoState.transactions ++ [tx] ∧
      (createTransaction (fun _ _ _ _ => 2) "t1" "h1" demoState 1 1 1 1 100
        "Regular").2.blockchain.chain.length =
          demoState.blockchain.chain.length + 1 ∧
      (tx.status = TxStatus.Failed ∨ tx.status = TxStatus.Completed) ∧
      (tx.status = TxStatus.Failed →
        (createTransaction (fun _ _ _ _ => 2) "t1" "h1" demoState 1 1 1 1 100
          "Regular").2.products = demoState.products ∧
        (createTransaction (fun _ _ _ _ => 2) "t1" "h1" demoState 1 1 1 1 100
          "Regular").2.retailers = demoState.retailers)) :=
  ⟨(claim_C2_precheck_failures_unrecorded (fun _ _ _ _ => 2) "t1" "h1"
      demoState 99 1 1 1 100 "Regular" (by decide)).1 (by decide),
   (claim_C2_precheck_failures_unrecorded (fun _ _ _ _ => 2) "t1" "h1"
      demoState 1 1 1 1 100 "Regular" (by decide)).2 (by decide)⟩

/-- Membership in an `updateFirst` result: every element is an old element or
the image of the first match. -/
lemma mem_updateFirst {α : Type} (p : α → Bool) (f : α → α) (l : List α)
    (x : α) (hx : x ∈ updateFirst p f l) :
    x ∈ l ∨ ∃ y, l.find? p = some y ∧ x = f y := by
  induction l with
  | nil => cases hx
  | cons a l ih =>
    by_cases ha : p a = true
    · rw [updateFirst, if_pos ha] at hx
      rcases List.mem_cons.mp hx with h | h
      · right; exact ⟨a, by rw [List.find?_cons_of_pos _ ha], h⟩
      · left; exact List.mem_cons_of_mem _ h
    · rw [updateFirst, if_neg ha] at hx
      rcases List.mem_cons.mp hx with h | h
      · left; simp [h]
      · rcases ih h with h2 | ⟨y, hy, hxy⟩
        · left; exact List.mem_cons_of_mem _ h2
        · right
          refine ⟨y, ?_, hxy⟩
          rw [List.find?_cons_of_neg _ (by simpa using ha), hy]

/-- Finding after `updateFirst` with the same predicate, when the update
preserves the predicate: the first match is the image of the old first
match. -/
lemma find?_updateFirst {α : Type} (p : α → Bool) (f : α → α)
    (hpf : ∀ y, p y = true → p (f y) = true) (l : List α) :
    (updateFirst p f l).find? p = (l.find? p).map f := by
  induction l with
  | nil => rfl
  | cons a l ih =>
    by_cases ha : p a = true
    · rw [updateFirst, if_pos ha, List.find?_cons_of_pos _ (hpf a ha),
        List.find?_cons_of_pos _ ha]
      rfl
    · rw [updateFirst, if_neg ha, List.find?_cons_of_neg _ (by simpa using ha),
        List.find?_cons_of_neg _ (by simpa using ha), ih]

/-- C3: `deductCredit` succeeds exactly when the current balance covers the
amount; on success both the current and the annual balance drop by exactly
that amount, on failure the retailer is exactly unchanged.  Consequently a
pipeline call that stores a Completed transaction rewrites the first
retailer with the given id by deducting `totalCost` from both balances, and
a call that stores a Failed transaction leaves every retailer unchanged —
never a partial deduction. -/
theorem claim_C3_credit_atomicity :
    (∀ (r : Retailer) (amount : ℚ),
      ((r.deductCredit amount).1 = true ↔ amount ≤ r.creditBalance) ∧
      ((r.deductCredit amount).1 = true →
        (r.deductCredit amount).2.creditBalance = r.creditBalance - amount ∧
        (r.deductCredit amount).2.annualCreditBalance =
          r.annualCreditBalance - amount) ∧
      ((r.deductCredit amount).1 = false → (r.deductCredit amount).2 = r)) ∧
    (∀ (dist : ℚ → ℚ → ℚ → ℚ → ℚ) (ts newHash : String) (st : SystemState)
      (sId rId pId tId qty : Int) (ot : String),
      st.blockchain.chain ≠ [] →
      passesPreChecks st sId rId pId tId qty = true →
      ∃ tx, (createTransaction dist ts newHash st sId rId pId tId qty
          ot).2.transactions = st.transactions ++ [tx] ∧
        (tx.status = TxStatus.Completed →
          (createTransaction dist ts newHash st sId rId pId tId qty
            ot).2.retailers = updateFirst (fun r => r.id == rId)
              (fun r => (r.deductCredit tx.totalCost).2) st.retailers) ∧
        (tx.status = TxStatus.Failed →
          (createTransaction dist ts newHash st sId rId pId tId qty
            ot).2.retailers = st.retailers)) := by
  constructor
  · intro r amount
    by_cases h : amount ≤ r.creditBalance
    · refine ⟨by simp [Retailer.deductCredit, h], ?_, ?_⟩
      · intro _
        simp [Retailer.deductCredit, h]
      · intro hfalse
        rw [Retailer.deductCredit, if_pos h] at hfalse
        cases hfalse
    · refine ⟨by simp [Retailer.deductCredit, h], ?_, ?_⟩
      · intro htrue
        rw [Retailer.deductCredit, if_neg h] at htrue
        cases htrue
      · intro _
        simp [Retailer.deductCredit, h]
  · intro dist ts newHash st sId rId pId tId qty ot hbc hpass
    rcases createTransaction_cases dist ts newHash st sId rId pId tId qty ot
      hbc with ⟨hf, _⟩ |
        ⟨s, r, p, t, tx, bc2, hS, hR, hP, hT, _, _, _, _, _, _, hout⟩
    · rw [hpass] at hf; cases hf
    · rcases hout with ⟨hstat, heq⟩ | ⟨hstat, hded, heq⟩
      · refine ⟨tx, by rw [heq], ?_, fun _ => by rw [heq]⟩
        intro hco; rw [hstat] at hco; cases hco
      · refine ⟨tx, by rw [heq], fun _ => by rw [heq], ?_⟩
        intro hfail; rw [hstat] at hfail; cases hfail

/-- Witness for C3: the deduction facts at a concrete retailer and amount,
and the pipeline consequence on the demo state. -/
theorem claim_C3_witness :
    (let r : Retailer := { id := 1, name := "R", location := "L", latitude := 3, longitude := 101, creditBalance := 500, annualCreditBalance := 900, productIds := [] }
     ((r.deductCredit 100).1 = true ↔ (100 : ℚ) ≤ r.creditBalance) ∧
     ((r.deductCredit 100).1 = true →
       (r.deductCredit 100).2.creditBalance = r.creditBalance - 100 ∧
       (r.deductCredit 100).2.annualCreditBalance =
         r.annualCreditBalance - 100) ∧
     ((r.deductCredit 100).1 = false → (r.deductCredit 100).2 = r)) ∧
    (∃ tx, (createTransaction (fun _ _ _ _ => 2) "t1" "h1" demoState 1 1 1 1
        100 "Regular").2.transactions = demoState.transactions ++ [tx] ∧
      (tx.status = TxStatus.Completed →
        (createTransaction (fun _ _ _ _ => 2) "t1" "h1" demoState 1 1 1 1 100
          "Regular").2.retailers = updateFirst (fun r => r.id == 1)
            (fun r => (r.deductCredit tx.totalCost).2) demoState.retailers) ∧
      (tx.status = TxStatus.Failed →
        (createTransaction (fun _ _ _ _ => 2) "t1" "h1" demoState 1 1 1 1 100
          "Regular").2.retailers = demoState.retailers)) :=
  ⟨claim_C3_credit_atomicity.1 _ 100,
   claim_C3_credit_atomicity.2 (fun _ _ _ _ => 2) "t1" "h1" demoState 1 1 1 1
     100 "Regular" (by decide) (by decide)⟩

/-- C4: a stored Completed transaction rewrites exactly the first product
with the transaction's product id, lowering its stock by exactly the
quantity; every element of the new product list is an old product or that
single image, and looking the product up afterwards finds the old product
with stock lowered by the quantity.  A stored Failed transaction changes no
product at all. -/
theorem claim_C4_stock_conservation (dist : ℚ → ℚ → ℚ → ℚ → ℚ)
    (ts newHash : String) (st : SystemState) (sId rId pId tId qty : Int)
    (ot : String) (hbc : st.blockchain.chain ≠ [])
    (hpass : passesPreChecks st sId rId pId tId qty = true) :
    ∃ tx, (createTransaction dist ts newHash st sId rId pId tId qty
        ot).2.transactions = st.transactions ++ [tx] ∧
      (tx.status = TxStatus.Completed →
        (createTransaction dist ts newHash st sId rId pId tId qty
          ot).2.products = updateFirst (fun p => p.id == pId)
            (fun p => p.updateStock (-qty)) st.products ∧
        (∀ q ∈ (createTransaction dist ts newHash st sId rId pId tId qty
            ot).2.products, q ∈ st.products ∨
          ∃ pOld, st.findProduct pId = some pOld ∧ q = pOld.updateStock (-qty)) ∧
        (∀ pOld, st.findProduct pId = some pOld →
          (createTransaction dist ts newHash st sId rId pId tId qty
            ot).2.findProduct pId = some (pOld.updateStock (-qty)) ∧
          (pOld.updateStock (-qty)).stock = pOld.stock - qty)) ∧
      (tx.status = TxStatus.Failed →
        (createTransaction dist ts newHash st sId rId pId tId qty
          ot).2.products = st.products) := by
  rcases createTransaction_cases dist ts newHash st sId rId pId tId qty ot hbc
    with ⟨hf, _⟩ |
      ⟨s, r, p, t, tx, bc2, hS, hR, hP, hT, _, _, _, _, _, _, hout⟩
  · rw [hpass] at hf; cases hf
  · rcases hout with ⟨hstat, heq⟩ | ⟨hstat, hded, heq⟩
    · refine ⟨tx, by rw [heq], ?_, fun _ => by rw [heq]⟩
      intro hco; rw [hstat] at hco; cases hco
    · refine ⟨tx, by rw [heq], ?_, ?_⟩
      · intro _
        refine ⟨by rw [heq], ?_, ?_⟩
        · intro q hq
          rw [heq] at hq
          exact mem_updateFirst _ _ _ q hq
        · intro pOld hpOld
          constructor
          · show (createTransaction dist ts newHash st sId rId pId tId qty
              ot).2.products.find? (fun p => p.id == pId) = _
            rw [heq]
            show (updateFirst (fun p => p.id == pId)
              (fun p => p.updateStock (-qty)) st.products).find? _ = _
            rw [find?_updateFirst (fun p => p.id == pId)
              (fun p => p.updateStock (-qty))
              (fun y hy => by simpa [Product.updateStock] using hy)
              st.products]
            rw [show st.products.find? (fun p => p.id == pId) = some pOld
              from hpOld]
            rfl
          · show pOld.stock + (-qty) = pOld.stock - qty
            ring
      · intro hfail; rw [hstat] at hfail; cases hfail

/-- Witness for C4 on the demo state. -/
theorem claim_C4_witness :
    ∃ tx, (createTransaction (fun _ _ _ _ => 2) "t1" "h1" demoState 1 1 1 1
        100 "Regular").2.transactions = demoState.transactions ++ [tx] ∧
      (tx.status = TxStatus.Completed →
        (createTransaction (fun _ _ _ _ => 2) "t1" "h1" demoState 1 1 1 1 100
          "Regular").2.products = updateFirst (fun p => p.id == 1)
            (fun p => p.updateStock (-100)) demoState.products ∧
        (∀ q ∈ (createTransaction (fun _ _ _ _ => 2) "t1" "h1" demoState 1 1
            1 1 100 "Regular").2.products, q ∈ demoState.products ∨
          ∃ pOld, demoState.findProduct 1 = some pOld ∧
            q = pOld.updateStock (-100)) ∧
        (∀ pOld, demoState.findProduct 1 = some pOld →
          (createTransaction (fun _ _ _ _ => 2) "t1" "h1" demoState 1 1 1 1
            100 "Regular").2.findProduct 1 = some (pOld.updateStock (-100)) ∧
          (pOld.updateStock (-100)).stock = pOld.stock - 100)) ∧
      (tx.status = TxStatus.Failed →
        (createTransaction (fun _ _ _ _ => 2) "t1" "h1" demoState 1 1 1 1 100
          "Regular").2.products = demoState.products) :=
  claim_C4_stock_conservation (fun _ _ _ _ => 2) "t1" "h1" demoState 1 1 1 1
    100 "Regular" (by decide) (by decide)

/-- One pipeline call keeps every product's stock non-negative and keeps the
ledger non-empty. -/
lemma createTransaction_preserves (dist : ℚ → ℚ → ℚ → ℚ → ℚ)
    (ts newHash : String) (st : SystemState) (sId rId pId tId qty : Int)
    (ot : String) (hbc : st.blockchain.chain ≠ [])
    (hstocks : ∀ p ∈ st.products, 0 ≤ p.stock) :
    (∀ p ∈ (createTransaction dist ts newHash st sId rId pId tId qty
      ot).2.products, 0 ≤ p.stock) ∧
    (createTransaction dist ts newHash st sId rId pId tId qty
      ot).2.blockchain.chain ≠ [] := by
  rcases createTransaction_cases dist ts newHash st sId rId pId tId qty ot hbc
    with ⟨_, heq⟩ |
      ⟨su, re, pr, tr, tx, bc2, hS, hR, hP, hT, _, hstockle, _, _, _, hlen, hout⟩
  · rw [heq]; exact ⟨hstocks, hbc⟩
  · have hbc2 : bc2.chain ≠ [] := by
      intro h; rw [h] at hlen; simp at hlen
    rcases hout with ⟨_, heq⟩ | ⟨_, _, heq⟩
    · rw [heq]; exact ⟨hstocks, hbc2⟩
    · rw [heq]
      refine ⟨?_, hbc2⟩
      intro q hq
      rcases mem_updateFirst _ _ _ q hq with h | ⟨y, hy, hqy⟩
      · exact hstocks q h
      · have hfind : st.products.find? (fun x => x.id == pId) = some pr := hP
        rw [hfind] at hy
        have hypr : y = pr := (Option.some_inj.mp hy).symm
        rw [hypr] at hqy
        rw [hqy]
        show 0 ≤ pr.stock + (-qty)
        omega

/-- C6: from any state whose products all have non-negative stock (and whose
ledger is non-empty, the construction invariant), every sequence of pipeline
calls with arbitrary caller-supplied quantities — zero and negative included
— leaves every product's stock non-negative: stock only changes on the
Completed path, which is guarded by the stock check. -/
theorem claim_C6_stock_never_negative (calls : List PipelineCall)
    (st : SystemState) (hbc : st.blockchain.chain ≠ [])
    (hstocks : ∀ p ∈ st.products, 0 ≤ p.stock) :
    ∀ p ∈ (runCalls calls st).products, 0 ≤ p.stock := by
  induction calls generalizing st with
  | nil => simpa [runCalls] using hstocks
  | cons c cs ih =>
    have h1 := createTransaction_preserves c.dist c.ts c.newHash st
      c.supplierId c.retailerId c.productId c.transporterId c.quantity
      c.orderType hbc hstocks
    simpa only [runCalls] using ih _ h1.2 h1.1

/-- Witness for C6: from the demo state, whose stocks are non-negative, two
calls — one with a negative quantity — keep all stocks non-negative. -/
theorem claim_C6_witness :
    (∀ p ∈ demoState.products, 0 ≤ p.stock) ∧
    (∀ p ∈ (runCalls
      [{ dist := fun _ _ _ _ => 2, ts := "t1", newHash := "h1", supplierId := 1, retailerId := 1, productId := 1, transporterId := 1, quantity := 100, orderType := "Regular" },
       { dist := fun _ _ _ _ => 2, ts := "t2", newHash := "h2", supplierId := 1, retailerId := 1, productId := 1, transporterId := 1, quantity := -5, orderType := "Regular" }]
      demoState).products, 0 ≤ p.stock) :=
  ⟨by decide, claim_C6_stock_never_negative
    [{ dist := fun _ _ _ _ => 2, ts := "t1", newHash := "h1", supplierId := 1, retailerId := 1, productId := 1, transporterId := 1, quantity := 100, orderType := "Regular" },
     { dist := fun _ _ _ _ => 2, ts := "t2", newHash := "h2", supplierId := 1, retailerId := 1, productId := 1, transporterId := 1, quantity := -5, orderType := "Regular" }]
    demoState (by decide) (by decide)⟩

/-! Helper lemmas about the route optimizer's scanning minimum. -/

/-- One step of the scanning loop. -/
lemma scanMinAux_cons (f : ℕ → ℚ) (ok : ℕ → Bool) (i : ℕ) (is : List ℕ)
    (acc : ℕ × Option ℚ) :
    scanMinAux f ok (i :: is) acc =
      scanMinAux f ok is
        (if ok i && (match acc.2 with
                     | none => true
                     | some m => decide (f i < m)) then (i, some (f i))
         else acc) := rfl

/-- Running the scanning loop from a committed best index `b`: the result
still satisfies `ok`, its value never worsens, it beats every qualifying list
element, strictly so for elements with smaller index (first-wins
tie-breaking), and it is `b` itself or a strictly better list element. -/
lemma scanMinAux_some_spec (f : ℕ → ℚ) (ok : ℕ → Bool) :
    ∀ (L : List ℕ) (b : ℕ), ok b = true → L.Pairwise (· < ·) →
      (∀ i ∈ L, b < i) →
      (scanMinAux f ok L (b, some (f b))).2 =
        some (f (scanMinAux f ok L (b, some (f b))).1) ∧
      ok (scanMinAux f ok L (b, some (f b))).1 = true ∧
      ((scanMinAux f ok L (b, some (f b))).1 = b ∨
        ((scanMinAux f ok L (b, some (f b))).1 ∈ L ∧
          f (scanMinAux f ok L (b, some (f b))).1 < f b)) ∧
      f (scanMinAux f ok L (b, some (f b))).1 ≤ f b ∧
      (∀ i ∈ L, ok i = true →
        f (scanMinAux f ok L (b, some (f b))).1 ≤ f i) ∧
      (∀ i ∈ L, ok i = true → i < (scanMinAux f ok L (b, some (f b))).1 →
        f (scanMinAux f ok L (b, some (f b))).1 < f i) := by
  intro L
  induction L with
  | nil =>
    intro b hok _ _
    exact ⟨rfl, hok, Or.inl rfl, le_refl _, by simp, by simp⟩
  | cons i is ih =>
    intro b hok hpw hgt
    have hi : b < i := hgt i (by simp)
    have his : ∀ j ∈ is, i < j := fun j hj => (List.pairwise_cons.mp hpw).1 j hj
    have hpwis : is.Pairwise (· < ·) := (List.pairwise_cons.mp hpw).2
    cases hoki : ok i with
    | false =>
      have hstep : scanMinAux f ok (i :: is) (b, some (f b)) =
          scanMinAux f ok is (b, some (f b)) := by
        rw [scanMinAux_cons]
        simp [hoki]
      rw [hstep]
      obtain ⟨h1, h2, h3, h4, h5, h6⟩ := ih b hok hpwis
        (fun j hj => hgt j (by simp [hj]))
      refine ⟨h1, h2, ?_, h4, ?_, ?_⟩
      · rcases h3 with h | ⟨hm, hv⟩
        · exact Or.inl h
        · exact Or.inr ⟨by simp [hm], hv⟩
      · intro j hj hokj
        rcases List.mem_cons.mp hj with rfl | hj2
        · rw [hokj] at hoki; cases hoki
        · exact h5 j hj2 hokj
      · intro j hj hokj hlt
        rcases List.mem_cons.mp hj with rfl | hj2
        · rw [hokj] at hoki; cases hoki
        · exact h6 j hj2 hokj hlt
    | true =>
      cases hcmp : decide (f i < f b) with
      | false =>
        have hle : f b ≤ f i := not_lt.mp (of_decide_eq_false hcmp)
        have hstep : scanMinAux f ok (i :: is) (b, some (f b)) =
            scanMinAux f ok is (b, some (f b)) := by
          rw [scanMinAux_cons]
          simp only [hoki, hcmp, Bool.and_false, Bool.false_eq_true,
            if_false]
        rw [hstep]
        obtain ⟨h1, h2, h3, h4, h5, h6⟩ := ih b hok hpwis
          (fun j hj => hgt j (by simp [hj]))
        refine ⟨h1, h2, ?_, h4, ?_, ?_⟩
        · rcases h3 with h | ⟨hm, hv⟩
          · exact Or.inl h
          · exact Or.inr ⟨by simp [hm], hv⟩
        · intro j hj hokj
          rcases List.mem_cons.mp hj with rfl | hj2
          · exact le_trans h4 hle
          · exact h5 j hj2 hokj
        · intro j hj hokj hlt
          rcases List.mem_cons.mp hj with rfl | hj2
          · rcases h3 with h | ⟨_, hv⟩
            · rw [h] at hlt
              exact absurd hlt (by omega)
            · exact lt_of_lt_of_le hv hle
          · exact h6 j hj2 hokj hlt
      | true =>
        have hltib : f i < f b := of_decide_eq_true hcmp
        have hstep : scanMinAux f ok (i :: is) (b, some (f b)) =
            scanMinAux f ok is (i, some (f i)) := by
          rw [scanMinAux_cons]
          simp only [hoki, hcmp, Bool.and_true, if_true]
        rw [hstep]
        obtain ⟨h1, h2, h3, h4, h5, h6⟩ := ih i hoki hpwis his
        refine ⟨h1, h2, ?_, le_trans h4 (le_of_lt hltib), ?_, ?_⟩
        · rcases h3 with h | ⟨hm, hv⟩
          · exact Or.inr ⟨by simp [h], lt_of_le_of_lt h4 hltib⟩
          · exact Or.inr ⟨by simp [hm], lt_trans hv hltib⟩
        · intro j hj hokj
          rcases List.mem_cons.mp hj with rfl | hj2
          · exact h4
          · exact h5 j hj2 hokj
        · intro j hj hokj hjlt
          rcases List.mem_cons.mp hj with rfl | hj2
          · rcases h3 with h | ⟨_, hv⟩
            · rw [h] at hjlt
              exact absurd hjlt (by omega)
            · exact hv
          · exact h6 j hj2 hokj hjlt

/-- Running the scanning loop from the empty sentinel: either no list index
qualifies and the accumulator is returned untouched, or the result is a
qualifying list element minimizing `f`, smaller index winning ties. -/
lemma scanMinAux_none_spec (f : ℕ → ℚ) (ok : ℕ → Bool) :
    ∀ (L : List ℕ) (z : ℕ), L.Pairwise (· < ·) →
      ((∀ i ∈ L, ok i = false) ∧ scanMinAux f ok L (z, none) = (z, none)) ∨
      (ok (scanMinAux f ok L (z, none)).1 = true ∧
        (scanMinAux f ok L (z, none)).1 ∈ L ∧
        (∀ i ∈ L, ok i = true →
          f (scanMinAux f ok L (z, none)).1 ≤ f i) ∧
        (∀ i ∈ L, ok i = true → i < (scanMinAux f ok L (z, none)).1 →
          f (scanMinAux f ok L (z, none)).1 < f i)) := by
  intro L
  induction L with
  | nil =>
    intro z _
    exact Or.inl ⟨by simp, rfl⟩
  | cons i is ih =>
    intro z hpw
    have his : ∀ j ∈ is, i < j := fun j hj => (List.pairwise_cons.mp hpw).1 j hj
    have hpwis : is.Pairwise (· < ·) := (List.pairwise_cons.mp hpw).2
    cases hoki : ok i with
    | false =>
      have hstep : scanMinAux f ok (i :: is) (z, none) =
          scanMinAux f ok is (z, none) := by
        rw [scanMinAux_cons]
        simp [hoki]
      rw [hstep]
      rcases ih z hpwis with ⟨hall, heq⟩ | ⟨h2, h3, h5, h6⟩
      · refine Or.inl ⟨?_, heq⟩
        intro j hj
        rcases List.mem_cons.mp hj with rfl | hj2
        · exact hoki
        · exact hall j hj2
      · refine Or.inr ⟨h2, by simp [h3], ?_, ?_⟩
        · intro j hj hokj
          rcases List.mem_cons.mp hj with rfl | hj2
          · rw [hokj] at hoki; cases hoki
          · exact h5 j hj2 hokj
        · intro j hj hokj hlt
          rcases List.mem_cons.mp hj with rfl | hj2
          · rw [hokj] at hoki; cases hoki
          · exact h6 j hj2 hokj hlt
    | true =>
      have hstep : scanMinAux f ok (i :: is) (z, none) =
          scanMinAux f ok is (i, some (f i)) := by
        rw [scanMinAux_cons]
        simp [hoki]
      rw [hstep]
      obtain ⟨h1, h2, h3, h4, h5, h6⟩ := scanMinAux_some_spec f ok is i hoki
        hpwis his
      refine Or.inr ⟨h2, ?_, ?_, ?_⟩
      · rcases h3 with h | ⟨hm, _⟩
        · simp [h]
        · simp [hm]
      · intro j hj hokj
        rcases List.mem_cons.mp hj with rfl | hj2
        · exact h4
        · exact h5 j hj2 hokj
      · intro j hj hokj hjlt
        rcases List.mem_cons.mp hj with rfl | hj2
        · rcases h3 with h | ⟨_, hv⟩
          · rw [h] at hjlt
            exact absurd hjlt (by omega)
          · exact hv
        · exact h6 j hj2 hokj hjlt

/-- Specification of the C++ scanning loops: when some index `< n` qualifies,
the returned index is a qualifying minimizer of `f` below `n`, and it beats
strictly every qualifying index smaller than itself (the first index
attaining the minimum wins, since only a strict improvement replaces the
best). -/
lemma scanMin_spec (f : ℕ → ℚ) (ok : ℕ → Bool) (n : ℕ)
    (hex : ∃ i, i < n ∧ ok i = true) :
    scanMin f ok n < n ∧ ok (scanMin f ok n) = true ∧
    (∀ j, j < n → ok j = true → f (scanMin f ok n) ≤ f j) ∧
    (∀ j, j < n → ok j = true → j < scanMin f ok n →
      f (scanMin f ok n) < f j) := by
  rcases scanMinAux_none_spec f ok (List.range n) 0 (List.pairwise_lt_range n)
    with ⟨hall, _⟩ | ⟨h2, h3, h5, h6⟩
  · obtain ⟨i, hi, hoki⟩ := hex
    rw [hall i (List.mem_range.mpr hi)] at hoki
    cases hoki
  · exact ⟨List.mem_range.mp h3, h2,
      fun j hj hokj => h5 j (List.mem_range.mpr hj) hokj,
      fun j hj hokj hlt => h6 j (List.mem_range.mpr hj) hokj hlt⟩

/-- Reading an index inside a prefix. -/
lemma prefix_getD {l r : List ℕ} (h : l <+: r) (i : ℕ) (hi : i < l.length) :
    r.getD i 0 = l.getD i 0 := by
  obtain ⟨t, rfl⟩ := h
  simp [List.getD_eq_getElem?_getD, List.getElem?_append, hi]

/-- Reading the element just appended. -/
lemma getD_append_length (l : List ℕ) (a : ℕ) : (l ++ [a]).getD l.length 0 = a := by
  simp [List.getD_eq_getElem?_getD, List.getElem?_append_right (le_refl l.length)]

/-- Reading the last element through `getD`. -/
lemma getLast?_getD {l : List ℕ} {c : ℕ} (h : l.getLast? = some c) :
    l.getD (l.length - 1) 0 = c := by
  rw [List.getLast?_eq_getElem?] at h
  simp [List.getD_eq_getElem?_getD, h]


/-- The visited filter of the greedy loop, as a membership statement. -/
lemma not_contains_iff (route : List ℕ) (j : ℕ) :
    (!(route.contains j)) = true ↔ j ∉ route := by simp

/-- Invariant of the greedy selection loop: starting from a duplicate-free
partial route of in-range indices ending at `current`, with `k` stops left to
choose out of `n`, the loop returns a duplicate-free list of all `n` indices
that extends the partial route, and from the partial route's last position on,
every successive stop is a first nearest not-yet-visited index. -/
lemma buildRoute_spec (d : ℕ → ℕ → ℚ) (n : ℕ) :
    ∀ (k : ℕ) (route : List ℕ) (current : ℕ),
      route.length + k = n →
      route.Nodup → (∀ x ∈ route, x < n) → route ≠ [] →
      route.getLast? = some current →
      (buildRoute d n k route current).length = n ∧
      (buildRoute d n k route current).Nodup ∧
      (∀ x ∈ buildRoute d n k route current, x < n) ∧
      route <+: buildRoute d n k route current ∧
      (∀ i, route.length - 1 ≤ i → i + 1 < n →
        (∀ j, j < n → j ∉ (buildRoute d n k route current).take (i+1) →
          d ((buildRoute d n k route current).getD i 0)
            ((buildRoute d n k route current).getD (i+1) 0) ≤
          d ((buildRoute d n k route current).getD i 0) j) ∧
        (∀ j, j < n → j ∉ (buildRoute d n k route current).take (i+1) →
          j < (buildRoute d n k route current).getD (i+1) 0 →
          d ((buildRoute d n k route current).getD i 0)
            ((buildRoute d n k route current).getD (i+1) 0) <
          d ((buildRoute d n k route current).getD i 0) j)) := by
  intro k
  induction k with
  | zero =>
    intro route current hlen hnd hbound hne _
    have hlen0 : route.length = n := by omega
    have hnpos : 1 ≤ n := by
      rcases route with _ | ⟨a, t⟩
      · exact absurd rfl hne
      · simp at hlen0; omega
    refine ⟨hlen0, hnd, hbound, List.prefix_refl _, ?_⟩
    intro i hi1 hi2
    exfalso
    omega
  | succ k ih =>
    intro route current hlen hnd hbound hne hlast
    have hstep : buildRoute d n (k + 1) route current =
        buildRoute d n k
          (route ++ [scanMin (d current) (fun j => !(route.contains j)) n])
          (scanMin (d current) (fun j => !(route.contains j)) n) := rfl
    have hLlt : route.length < n := by omega
    have hex : ∃ j, j < n ∧ (!(route.contains j)) = true := by
      have hsub : route.toFinset ⊆ Finset.range n := by
        intro x hx
        exact Finset.mem_range.mpr (hbound x (List.mem_toFinset.mp hx))
      have hcard : route.toFinset.card < (Finset.range n).card := by
        rw [List.toFinset_card_of_nodup hnd, Finset.card_range]
        exact hLlt
      obtain ⟨j, hj1, hj2⟩ := Finset.exists_of_ssubset
        (lt_of_le_of_ne hsub (by intro h; rw [h] at hcard; omega))
      exact ⟨j, Finset.mem_range.mp hj1, (not_contains_iff route j).mpr
        (fun hmem => hj2 (List.mem_toFinset.mpr hmem))⟩
    obtain ⟨hnextlt, hoknext, hmin, hstrict⟩ :=
      scanMin_spec (d current) (fun j => !(route.contains j)) n hex
    have hnextnot : scanMin (d current) (fun j => !(route.contains j)) n ∉
        route := (not_contains_iff route _).mp hoknext
    have hnew : (route ++ [scanMin (d current) (fun j => !(route.contains j))
        n]).Nodup := by
      rw [List.nodup_append]
      refine ⟨hnd, List.nodup_singleton _, ?_⟩
      intro x hx hmem
      rw [List.mem_singleton.mp hmem] at hx
      exact hnextnot hx
    obtain ⟨ih1, ih2, ih3, ih4, ih5⟩ := ih
      (route ++ [scanMin (d current) (fun j => !(route.contains j)) n])
      (scanMin (d current) (fun j => !(route.contains j)) n)
      (by simp; omega) hnew
      (by
        intro x hx
        rcases List.mem_append.mp hx with h | h
        · exact hbound x h
        · rw [List.mem_singleton.mp h]; exact hnextlt)
      (by simp)
      (List.getLast?_concat _)
    rw [hstep]
    have hprefix : route <+: buildRoute d n k
        (route ++ [scanMin (d current) (fun j => !(route.contains j)) n])
        (scanMin (d current) (fun j => !(route.contains j)) n) :=
      (List.prefix_append route _).trans ih4
    refine ⟨ih1, ih2, ih3, hprefix, ?_⟩
    intro i hi1 hi2
    rcases Nat.lt_or_ge i route.length with hcase | hcase
    · -- i = route.length - 1: the step chosen by this scanMin call
      have hieq : i = route.length - 1 := by omega
      have htake : (buildRoute d n k
          (route ++ [scanMin (d current) (fun j => !(route.contains j)) n])
          (scanMin (d current) (fun j => !(route.contains j)) n)).take
            route.length = route := by
        have := List.prefix_iff_eq_take.mp hprefix
        exact this.symm
      have hi1eq : i + 1 = route.length := by omega
      have hgetcur : (buildRoute d n k
          (route ++ [scanMin (d current) (fun j => !(route.contains j)) n])
          (scanMin (d current) (fun j => !(route.contains j)) n)).getD i 0 =
            current := by
        rw [prefix_getD hprefix i hcase, hieq, getLast?_getD hlast]
      have hgetnext : (buildRoute d n k
          (route ++ [scanMin (d current) (fun j => !(route.contains j)) n])
          (scanMin (d current) (fun j => !(route.contains j)) n)).getD
            (i + 1) 0 = scanMin (d current) (fun j => !(route.contains j)) n := by
        rw [prefix_getD ih4 (i + 1) (by simp; omega), hi1eq,
          getD_append_length]
      rw [hgetcur, hgetnext, hi1eq, htake]
      constructor
      · intro j hj hjmem
        exact hmin j hj ((not_contains_iff route j).mpr hjmem)
      · intro j hj hjmem hjlt
        exact hstrict j hj ((not_contains_iff route j).mpr hjmem) hjlt
    · -- i at or beyond the extended route's last position
      exact ih5 i (by simp; omega) hi2

/-- Reading the head through `getD`. -/
lemma headD_eq_getD (l : List ℕ) : l.headD 0 = l.getD 0 0 := by
  simp [List.headD_eq_head?, List.head?_eq_getElem?, List.getD_eq_getElem?_getD]

/-- C9: with fewer than two retailers the optimizer is a precondition error;
otherwise it visits every retailer index exactly once (the output is a
permutation of `0..n-1`), the first stop is the first nearest retailer to the
supplier, every later stop is the first nearest not-yet-visited retailer to
the current stop (first in iteration order winning distance ties), and the
reported total distance is exactly supplier-to-first plus the consecutive
stop-to-stop legs plus last-back-to-supplier.  The distance functions are
abstract parameters, so this holds in particular for the planar
`sqrt(dLat^2+dLon^2) * 111` distance of `calculateDistance`. -/
theorem claim_C9_route_optimizer (supDist retSup : ℕ → ℚ) (d : ℕ → ℕ → ℚ)
    (n : ℕ) (hn : 2 ≤ n) :
    (∀ m, m < 2 → optimizeDistributionRoute supDist retSup d m = none) ∧
    (∃ route total,
      optimizeDistributionRoute supDist retSup d n = some (route, total) ∧
      route.Perm (List.range n) ∧
      total = supDist (route.headD 0) + consecSum d route +
        retSup (route.getLastD 0) ∧
      (∀ j, j < n → supDist (route.headD 0) ≤ supDist j) ∧
      (∀ j, j < route.headD 0 → supDist (route.headD 0) < supDist j) ∧
      (∀ i, i + 1 < n →
        (∀ j, j < n → j ∉ route.take (i + 1) →
          d (route.getD i 0) (route.getD (i + 1) 0) ≤ d (route.getD i 0) j) ∧
        (∀ j, j < n → j ∉ route.take (i + 1) → j < route.getD (i + 1) 0 →
          d (route.getD i 0) (route.getD (i + 1) 0) <
            d (route.getD i 0) j))) := by
  constructor
  · intro m hm
    unfold optimizeDistributionRoute
    rw [if_pos hm]
  · have hn0 : ¬ (n < 2) := by omega
    obtain ⟨hfirstlt, _, hfmin, hfstrict⟩ :=
      scanMin_spec supDist (fun _ => true) n ⟨0, by omega, rfl⟩
    obtain ⟨h1, h2, h3, h4, h5⟩ := buildRoute_spec d n (n - 1)
      [scanMin supDist (fun _ => true) n] (scanMin supDist (fun _ => true) n)
      (by simp; omega) (List.nodup_singleton _)
      (by
        intro x hx
        rw [List.mem_singleton.mp hx]
        exact hfirstlt)
      (by simp) (by simp)
    have hhead : (buildRoute d n (n - 1) [scanMin supDist (fun _ => true) n]
        (scanMin supDist (fun _ => true) n)).headD 0 =
          scanMin supDist (fun _ => true) n := by
      rw [headD_eq_getD, prefix_getD h4 0 (by simp)]
      rfl
    refine ⟨buildRoute d n (n - 1) [scanMin supDist (fun _ => true) n]
        (scanMin supDist (fun _ => true) n), _, ?_, ?_, rfl, ?_, ?_, ?_⟩
    · unfold optimizeDistributionRoute
      rw [if_neg hn0]
    · apply List.perm_of_nodup_nodup_toFinset_eq h2 (List.nodup_range n)
      have hsub : (buildRoute d n (n - 1)
          [scanMin supDist (fun _ => true) n]
          (scanMin supDist (fun _ => true) n)).toFinset ⊆
            (List.range n).toFinset := by
        intro x hx
        rw [List.mem_toFinset] at hx
        rw [List.mem_toFinset]
        exact List.mem_range.mpr (h3 x hx)
      have hcard : (List.range n).toFinset.card ≤ (buildRoute d n (n - 1)
          [scanMin supDist (fun _ => true) n]
          (scanMin supDist (fun _ => true) n)).toFinset.card := by
        rw [List.toFinset_card_of_nodup h2,
          List.toFinset_card_of_nodup (List.nodup_range n)]
        simp [h1]
      exact Finset.eq_of_subset_of_card_le hsub hcard
    · intro j hj
      rw [hhead]
      exact hfmin j hj rfl
    · intro j hjlt
      rw [hhead] at hjlt ⊢
      exact hfstrict j (lt_trans hjlt hfirstlt) rfl hjlt
    · intro i hi2
      exact h5 i (by simp) hi2

/-- Witness for C9 at three retailers with concrete distances. -/
theorem claim_C9_witness :
    (∀ m, m < 2 → optimizeDistributionRoute (fun i => (i : ℚ))
      (fun i => (i : ℚ)) (fun _ _ => 1) m = none) ∧
    (∃ route total,
      optimizeDistributionRoute (fun i => (i : ℚ)) (fun i => (i : ℚ))
        (fun _ _ => 1) 3 = some (route, total) ∧
      route.Perm (List.range 3) ∧
      total = (route.headD 0 : ℚ) + consecSum (fun _ _ => 1) route +
        (route.getLastD 0 : ℚ) ∧
      (∀ (j : ℕ), j < 3 → (route.headD 0 : ℚ) ≤ (j : ℚ)) ∧
      (∀ (j : ℕ), j < route.headD 0 → (route.headD 0 : ℚ) < (j : ℚ)) ∧
      (∀ (i : ℕ), i + 1 < 3 →
        (∀ (j : ℕ), j < 3 → j ∉ route.take (i + 1) → (1 : ℚ) ≤ 1) ∧
        (∀ (j : ℕ), j < 3 → j ∉ route.take (i + 1) → j < route.getD (i + 1) 0 →
          (1 : ℚ) < 1))) :=
  claim_C9_route_optimizer (fun i => (i : ℚ)) (fun i => (i : ℚ))
    (fun _ _ => 1) 3 (by decide)

/-! Helper lemmas about the inventory allocator. -/

/-- The accumulated total of an association list is the sum of its values. -/
lemma assocSum_eq (m : List (Int × Int)) : assocSum m = (m.map Prod.snd).sum := by
  have h : ∀ (l : List (Int × Int)) (init : Int),
      l.foldl (fun s p => s + p.2) init = init + (l.map Prod.snd).sum := by
    intro l
    induction l with
    | nil => intro init; simp
    | cons a t ih =>
      intro init
      rw [List.foldl_cons, ih, List.map_cons, List.sum_cons]
      ring
  simpa [assocSum] using h m 0

/-- Casting an integer list sum to the rationals. -/
lemma intListSum_cast (l : List Int) :
    ((l.sum : Int) : ℚ) = (l.map (fun v : Int => (v : ℚ))).sum := by
  induction l with
  | nil => simp
  | cons a t ih => simp [ih]

/-- Pulling a constant factor out of a rational list sum. -/
lemma ratListSum_mul (l : List ℚ) (c : ℚ) :
    (l.map (fun x => x * c)).sum = l.sum * c := by
  induction l with
  | nil => simp
  | cons a t ih =>
    rw [List.map_cons, List.sum_cons, ih, List.sum_cons]
    ring

/-- Values written by `setAssoc` keep a property shared by the inserted
value and the old values. -/
lemma setAssoc_values {P : Int → Prop} :
    ∀ (m : List (Int × Int)) (k v : Int), (∀ q ∈ m, P q.2) → P v →
      ∀ q ∈ setAssoc m k v, P q.2 := by
  intro m
  induction m with
  | nil =>
    intro k v _ hv q hq
    rw [setAssoc] at hq
    rw [List.mem_singleton.mp hq]
    exact hv
  | cons a t ih =>
    intro k v hm hv q hq
    rw [setAssoc] at hq
    by_cases hk : (a.1 == k) = true
    · rw [if_pos hk] at hq
      rcases List.mem_cons.mp hq with h | h
      · rw [h]; exact hv
      · exact hm q (List.mem_cons_of_mem _ h)
    · rw [if_neg hk] at hq
      rcases List.mem_cons.mp hq with h | h
      · rw [h]; exact hm a (by simp)
      · exact ih k v (fun x hx => hm x (List.mem_cons_of_mem _ hx)) hv q h

/-- Every allocation the per-retailer loop writes carries the 10-unit safety
floor. -/
lemma optimalAllocation_ge10 (retailers : List Retailer)
    (demandMap : List (Int × Int)) (totalStock totalDemand : Int) :
    ∀ q ∈ optimalAllocation retailers demandMap totalStock totalDemand,
      (10 : Int) ≤ q.2 := by
  unfold optimalAllocation
  have h : ∀ (rs : List Retailer) (acc : List (Int × Int)),
      (∀ q ∈ acc, (10 : Int) ≤ q.2) →
      ∀ q ∈ rs.foldl (fun m r => setAssoc m r.id
        (rawAllocation totalStock totalDemand (lookupAssoc demandMap r.id)
          retailers.length)) acc, (10 : Int) ≤ q.2 := by
    intro rs
    induction rs with
    | nil => intro acc hacc q hq; exact hacc q hq
    | cons r rest ih =>
      intro acc hacc q hq
      rw [List.foldl_cons] at hq
      refine ih _ ?_ q hq
      intro x hx
      refine setAssoc_values acc r.id _ hacc ?_ x hx
      unfold rawAllocation
      exact le_max_right _ _
  intro q hq
  exact h retailers [] (by simp) q hq

/-- Truncation of a non-negative rational stays below it. -/
lemma ratTrunc_le {q : ℚ} (h : 0 ≤ q) : ((ratTrunc q : Int) : ℚ) ≤ q := by
  rw [ratTrunc, if_pos h]
  exact Int.floor_le q

/-- Rescaling non-negative integers by `S/T` with truncation, where the
integers sum to `T > 0` and `S ≥ 0`, gives a total of at most `S`. -/
lemma truncScale_sum_le (V : List Int) (S T : Int) (hS : 0 ≤ S)
    (hT : V.sum = T) (hTpos : 0 < T) (hnn : ∀ v ∈ V, 0 ≤ v) :
    (V.map (fun v : Int => ratTrunc ((v : ℚ) * ((S : ℚ) / (T : ℚ))))).sum ≤ S := by
  have hTQ : (0 : ℚ) < (T : ℚ) := by exact_mod_cast hTpos
  have hfac : (0 : ℚ) ≤ (S : ℚ) / (T : ℚ) :=
    div_nonneg (by exact_mod_cast hS) (le_of_lt hTQ)
  have key : (((V.map (fun v : Int => ratTrunc ((v : ℚ) *
      ((S : ℚ) / (T : ℚ))))).sum : Int) : ℚ) ≤ (S : ℚ) := by
    rw [intListSum_cast, List.map_map]
    have h1 : ∀ v ∈ V, ((fun x : Int => (x : ℚ)) ∘
        (fun v : Int => ratTrunc ((v : ℚ) * ((S : ℚ) / (T : ℚ))))) v ≤
        (fun v : Int => (v : ℚ) * ((S : ℚ) / (T : ℚ))) v := by
      intro v hv
      exact ratTrunc_le (mul_nonneg (by exact_mod_cast hnn v hv) hfac)
    calc (V.map ((fun x : Int => (x : ℚ)) ∘
          (fun v : Int => ratTrunc ((v : ℚ) * ((S : ℚ) / (T : ℚ)))))).sum ≤
        (V.map (fun v : Int => (v : ℚ) * ((S : ℚ) / (T : ℚ)))).sum :=
          List.sum_le_sum h1
      _ = (V.map (fun v : Int => (v : ℚ))).sum * ((S : ℚ) / (T : ℚ)) := by
          rw [show (fun v : Int => (v : ℚ) * ((S : ℚ) / (T : ℚ))) =
            ((fun x : ℚ => x * ((S : ℚ) / (T : ℚ))) ∘
              (fun v : Int => (v : ℚ))) from rfl, ← List.map_map,
            ratListSum_mul]
      _ = (T : ℚ) * ((S : ℚ) / (T : ℚ)) := by rw [← intListSum_cast, hT]
      _ = (S : ℚ) := by rw [mul_comm, div_mul_cancel₀ _ (ne_of_gt hTQ)]
  exact_mod_cast key

/-- C10: for every product with non-negative stock, every retailer set and
every transaction history, the allocator's final per-retailer allocations sum
to at most the available stock: when the rescale does not trigger the branch
condition already bounds the sum, and when it triggers each truncated share
is at most its exact share `a*stock/total`, and the exact shares sum to
exactly `stock`. -/
theorem claim_C10_allocation_bounded (retailers : List Retailer)
    (txs : List Transaction) (productId totalStock : Int)
    (hstock : 0 ≤ totalStock) :
    assocSum (finalAllocation retailers txs productId totalStock) ≤
      totalStock := by
  simp only [finalAllocation]
  set A := optimalAllocation retailers (retailerDemandMap txs productId)
    totalStock (assocSum (retailerDemandMap txs productId)) with hA
  by_cases hcmp : totalStock < assocSum A
  · rw [if_pos hcmp]
    have hge := optimalAllocation_ge10 retailers
      (retailerDemandMap txs productId) totalStock
      (assocSum (retailerDemandMap txs productId))
    rw [← hA] at hge
    rw [assocSum_eq, List.map_map]
    rw [show (Prod.snd ∘ fun p : Int × Int => (p.1, ratTrunc ((p.2 : ℚ) *
      ((totalStock : ℚ) / ((assocSum A : Int) : ℚ))))) =
      ((fun v : Int => ratTrunc ((v : ℚ) *
        ((totalStock : ℚ) / ((assocSum A : Int) : ℚ)))) ∘ Prod.snd)
      from rfl, ← List.map_map]
    refine truncScale_sum_le (A.map Prod.snd) totalStock (assocSum A) hstock
      (assocSum_eq A).symm (lt_of_le_of_lt hstock hcmp) ?_
    intro v hv
    obtain ⟨q, hq, rfl⟩ := List.mem_map.mp hv
    have := hge q hq
    omega
  · rw [if_neg hcmp]
    omega

/-- Witness for C10 on concrete inputs: one retailer, no history and stock 7
(the equal split plus the 10-unit floor forces the rescale). -/
theorem claim_C10_witness :
    assocSum (finalAllocation
      [{ id := 1, name := "SuperMart", location := "KL", latitude := 3, longitude := 101, creditBalance := 10000, annualCreditBalance := 100000, productIds := [] }]
      [] 1 7) ≤ 7 :=
  claim_C10_allocation_bounded _ [] 1 7 (by decide)
